import Mathlib

/-!
# demrender: a shallow embedding of the DEM decoder of `src/main.cc`

The C++ program reads a USGS-style Digital Elevation Model file through a
`std::istream`.  The embedding keeps three things explicit:

* the stream: the content of the file is a list of characters `bytes` that no
  operation changes, and `IStream` is the state of the stream on it, the get
  position and the two state bits the program can observe (`failbit`, `eofbit`);
* values that C++ leaves indeterminate (an `int` nothing was extracted into) are
  `Option Int` with `none` for "never written";
* behaviour the C++ code does not define or that leaves the function by an
  exception is a `Fault` carried in `Except`.

Memory exhaustion (`std::bad_alloc`) is not modelled: allocations of a
representable size succeed.
-/

namespace DEM

/-! ## The input stream (`std::istream` over a file) -/

/-- What can end a decode other than a normal return. -/
inductive Fault where
  /-- `std::length_error` thrown by `std::vector::reserve` (size above `max_size()`). -/
  | length_error
  /-- an `int` with an indeterminate value is read -/
  | indeterminate
  /-- signed `int` arithmetic leaves the range of `int` -/
  | overflow
  /-- a read through the `string_view` outside the bytes of the record buffer -/
  | out_of_bounds
deriving DecidableEq, Repr

/-- State of a seekable input stream: the get position and the state bits.
`badbit` is never set by the operations the program uses on a file. -/
structure IStream where
  pos : Nat
  failbit : Bool
  eofbit : Bool
deriving DecidableEq, Repr

/-- Smallest value of `int`. -/
def INT_MIN : Int := -2147483648

/-- Largest value of `int`. -/
def INT_MAX : Int := 2147483647

/-- Smallest value of `long`. -/
def LONG_MIN : Int := -9223372036854775808

/-- Largest value of `long`. -/
def LONG_MAX : Int := 9223372036854775807

/-- Whether a mathematical integer is a value of `int`. -/
def in_int_range (v : Int) : Bool := decide (INT_MIN ≤ v) && decide (v ≤ INT_MAX)

/-- Saturation of `v` to the interval from `lo` to `hi`. -/
def clamp (lo hi v : Int) : Int := if v < lo then lo else if hi < v then hi else v

/-- The function `isspace` in the "C" locale: space, and `\t \n \v \f \r` (9 to 13). -/
def isspace (c : Char) : Bool := c.toNat == 32 || (decide (9 ≤ c.toNat) && decide (c.toNat ≤ 13))

/-- The function `isdigit`: the characters from 0 to 9. -/
def isdigit (c : Char) : Bool := decide (48 ≤ c.toNat) && decide (c.toNat ≤ 57)

/-- Value of a run of decimal digits, most significant first. -/
def digits_value (ds : List Char) : Nat := ds.foldl (fun a c => a * 10 + (c.toNat - 48)) 0

namespace IStream

/-- The state of a freshly opened stream. -/
def fresh : IStream := { pos := 0, failbit := false, eofbit := false }

/-- State test `good()`: no state bit is set. -/
def good (s : IStream) : Bool := !s.failbit && !s.eofbit

/-- The bytes of the file from the get position to the end. -/
def rest (bytes : List Char) (s : IStream) : List Char := bytes.drop s.pos

/-- Absolute `seekg(pos)`: clears `eofbit`, then moves the get position unless
the stream has failed.  Seeking past the end of a file succeeds. -/
def seekg (s : IStream) (p : Nat) : IStream :=
  if s.failbit then { s with eofbit := false } else { s with pos := p, eofbit := false }

/-- Position query `tellg()`: a sentry is built first, so a stream that is not
good gets `failbit`; the result is `none` (for `pos_type(-1)`) on a failed stream. -/
def tellg (s : IStream) : IStream × Option Nat :=
  if s.good then (s, some s.pos) else ({ s with failbit := true }, none)

/-- The call `seekg(start, std::ios_base::beg)` with `start` the result of `tellg()`.
An offset of -1 cannot be sought to. -/
def seekg_beg (s : IStream) (start : Option Nat) : IStream :=
  match start with
  | some p => s.seekg p
  | none => { s with failbit := true, eofbit := false }

/-- Unformatted `read(buf, n)`: a stream that is not good takes nothing and gets
`failbit`; otherwise up to `n` bytes are stored, and when fewer than `n` were
there `failbit` and `eofbit` are set.  Returns the bytes stored into the buffer. -/
def read (bytes : List Char) (s : IStream) (n : Nat) : IStream × List Char :=
  if !s.good then ({ s with failbit := true }, [])
  else
    let got := (s.rest bytes).take n
    if got.length = n then ({ s with pos := s.pos + n }, got)
    else ({ s with pos := s.pos + got.length, failbit := true, eofbit := true }, got)

end IStream

/-- Result of `std::num_get::get` for `long` on the characters at the get position. -/
structure NumGet where
  consumed : Nat
  value : Int
  fail : Bool
  eof : Bool
deriving DecidableEq, Repr

/-- The decimal `num_get` conversion to `long`: an optional sign, then the
longest run of digits.  No digit gives value 0 and failure; a value outside
`long` saturates and fails; `eof` tells that the scan ran into the end of input. -/
def num_get_long (cs : List Char) : NumGet :=
  let neg := cs.head? == some '-'
  let sgn := neg || cs.head? == some '+'
  let body := if sgn then cs.tail else cs
  let ds := body.takeWhile isdigit
  let v : Int := if neg then -(digits_value ds : Int) else (digits_value ds : Int)
  { consumed := (if sgn then 1 else 0) + ds.length
    value := if ds.isEmpty then 0 else clamp LONG_MIN LONG_MAX v
    fail := ds.isEmpty || decide (v < LONG_MIN) || decide (LONG_MAX < v)
    eof := (body.dropWhile isdigit).isEmpty }

namespace IStream

/-- Formatted extraction `stm >> x` for `int x`, `old` being the content of `x`
before.  The sentry skips white space; when the stream is not good, or only
white space is left, nothing is stored in `x`.  Otherwise `x` is always
written: 0 when no number is there, the saturated value when it does not fit
(both with `failbit`). -/
def extract_int (bytes : List Char) (s : IStream) (old : Option Int) : IStream × Option Int :=
  if !s.good then ({ s with failbit := true }, old)
  else
    let ws := (s.rest bytes).takeWhile isspace
    let cs := (s.rest bytes).dropWhile isspace
    if cs.isEmpty then
      ({ s with pos := s.pos + ws.length, failbit := true, eofbit := true }, old)
    else
      let r := num_get_long cs
      ({ pos := s.pos + ws.length + r.consumed
         failbit := r.fail || !in_int_range r.value
         eofbit := r.eof },
       some (clamp INT_MIN INT_MAX r.value))

end IStream

/-- The call `std::sscanf(p.c_str(), "%d", &z)`: the return value and what was
stored in `z`.  The C string ends at the first NUL.  Leading white space is
skipped; the end of the string before any sign or digit is an input failure
(`EOF`, -1); a sign or other character without digits is a matching failure
(0); otherwise one item is assigned (1): the `strtol` value converted to `int`. -/
def sscanf_d (p : List Char) : Int × Option Int :=
  let str := p.takeWhile (fun c => c.toNat != 0)
  let cs := str.dropWhile isspace
  if cs.isEmpty then (-1, none)
  else
    let neg := cs.head? == some '-'
    let sgn := neg || cs.head? == some '+'
    let body := if sgn then cs.tail else cs
    let ds := body.takeWhile isdigit
    if ds.isEmpty then (0, none)
    else
      let v : Int := if neg then -(digits_value ds : Int) else (digits_value ds : Int)
      (1, some ((clamp LONG_MIN LONG_MAX v + 2147483648) % 4294967296 - 2147483648))

/-! ## `read_fixed_field` (lines 18-31) -/

/-- The call `s.find_first_not_of(" ")`: index of the first character that is
not a space, `none` (for `npos`) when there is none. -/
def find_first_not_of_space : List Char → Option Nat
  | [] => none
  | c :: cs => if c != ' ' then some 0 else (find_first_not_of_space cs).map (fun i => i + 1)

/-- The template `read_fixed_field<fwidth>` (instantiated for a positive
`fwidth`): reads `fwidth` bytes; when the read succeeded returns them without
the prefix of length `std::min(s.find_first_not_of(" "), s.size())`, `npos`
being above every size; otherwise returns the empty string. -/
def read_fixed_field (fwidth : Nat) (bytes : List Char) (stm : IStream) : List Char × IStream :=
  let (stm1, buf) := stm.read bytes fwidth
  if !stm1.failbit then
    let k := match find_first_not_of_space buf with
      | some i => min i buf.length
      | none => buf.length
    (buf.drop k, stm1)
  else
    ([], stm1)

/-! ## `DEMInfo` (lines 33-82) -/

/-- The class `DEMInfo`.  The two `int` members have no initialiser: they are
indeterminate (`none`) until something is extracted into them. -/
structure DEMInfo where
  fname_ : List Char
  description_ : List Char
  rows_ : Option Int
  cols_ : Option Int
deriving DecidableEq, Repr

/-- A default-constructed `DEMInfo`. -/
def DEMInfo.new : DEMInfo := { fname_ := [], description_ := [], rows_ := none, cols_ := none }

/-- The header decoder `operator>>(std::istream&, DEMInfo&)` (lines 39-55). -/
def DEMInfo.read (bytes : List Char) (stm : IStream) (inf : DEMInfo) : IStream × DEMInfo :=
  let (fname, stm1) := read_fixed_field 40 bytes stm
  let (description, stm2) := read_fixed_field 40 bytes stm1
  let stm3 := stm2.seekg 853
  let (stm4, rows) := stm3.extract_int bytes inf.rows_
  let (stm5, cols) := stm4.extract_int bytes inf.cols_
  let stm6 := stm5.seekg 1024
  (stm6, { fname_ := fname, description_ := description, rows_ := rows, cols_ := cols })

/-! ## `DEMRecord` (lines 84-200) -/

/-- The class `DEMRecord`: the column read from the record preamble and the samples. -/
structure DEMRecord where
  col_ : Int
  elevations_ : List Int
deriving DecidableEq, Repr

/-- A default-constructed `DEMRecord`: `col_{ -1 }` and no samples. -/
def DEMRecord.new : DEMRecord := { col_ := -1, elevations_ := [] }

/-- Samples in the first block (line 118). -/
def samples_block_0 : Nat := 146

/-- Samples in each later block (line 119). -/
def samples_block_n : Nat := 170

/-- Width of the record header (line 121). -/
def header_width : Nat := 146

/-- Width of one sample field (line 122). -/
def int_field_width : Nat := 6

/-- Width of a block (line 123). -/
def block_width : Nat := 1024

/-- The number `l` of blocks computed from the sample count `m` (lines 135-137):
`auto l = (m * int_field_width) / block_width; if ((l % block_width) != 0) ++l;`
with the truncating division and remainder of C++. -/
def block_count (m : Int) : Int :=
  let l := Int.tdiv (m * (int_field_width : Int)) (block_width : Int)
  if Int.tmod l (block_width : Int) ≠ 0 then l + 1 else l

/-- The inner loop (lines 156-168), `todo` being the iterations `points - i`
still to run, `s` the part of the record buffer the `string_view` still
covers, `m` the remaining count and `acc` the samples so far.  The field
`p{ s.begin(), s.begin()+int_field_width }` must lie inside the buffer.  Both
`break`s leave this loop only; the second one leaves after the field was
removed from the view and skips `--m`. -/
def sample_loop : Nat → List Char → Int → List Int → Except Fault (List Char × Int × List Int)
  | 0, s, m, acc => .ok (s, m, acc)
  | todo + 1, s, m, acc =>
    if m = 0 then .ok (s, m, acc)
    else
      let p := s.take int_field_width
      if p.length < int_field_width then .error Fault.out_of_bounds
      else
        match sscanf_d p with
        | (r, z) =>
          if r = 0 then .ok (s.drop int_field_width, m, acc)
          else
            match z with
            | none => .error Fault.indeterminate
            | some v => sample_loop todo (s.drop int_field_width) (m - 1) (acc ++ [v])

/-- The outer loop (lines 152-172), `todo` being the blocks `l - block` still
to process.  After the samples of a block the padding is removed from the
view: 2 bytes after block 0, 4 after a later block. -/
def block_loop : Nat → Nat → List Char → Int → List Int → Except Fault (List Char × Int × List Int)
  | 0, _, s, m, acc => .ok (s, m, acc)
  | todo + 1, block, s, m, acc =>
    let points := if block ≠ 0 then samples_block_n else samples_block_0
    match sample_loop points s m acc with
    | .error e => .error e
    | .ok (s1, m1, acc1) =>
      block_loop todo (block + 1) (s1.drop (if block ≠ 0 then 4 else 2)) m1 acc1

/-- The preamble peek (lines 126-132): `tellg`, the four extractions into
`row`, `rec.col_`, `m` and `n`, and the seek back to `start`.  The locals
`row`, `m` and `n` start indeterminate; `rec.col_` holds `col` before.
Returns the stream, `rec.col_` and `m`. -/
def DEMRecord.peek (bytes : List Char) (stm : IStream) (col : Int) : IStream × Int × Option Int :=
  let (stm1, start) := stm.tellg
  let (stm2, _row) := stm1.extract_int bytes none
  let (stm3, col1) := stm2.extract_int bytes (some col)
  let (stm4, m) := stm3.extract_int bytes none
  let (stm5, _n) := stm4.extract_int bytes none
  (stm5.seekg_beg start, col1.getD col, m)

/-- The record decoder `operator>>(std::istream&, DEMRecord&)` (lines 114-176).
Reading `m` when nothing was extracted into it is undefined; a negative `m`
makes `reserve(m)` throw `std::length_error`; the samples are decoded only
when the bulk read succeeded, from the view `s` of the buffer after
`s.remove_prefix(header_width)`. -/
def DEMRecord.read (bytes : List Char) (stm : IStream) (rec : DEMRecord) :
    Except Fault (IStream × DEMRecord) :=
  match DEMRecord.peek bytes stm rec.col_ with
  | (_, _, none) => .error Fault.indeterminate
  | (stm1, col, some m) =>
    if !in_int_range (m * (int_field_width : Int)) then .error Fault.overflow
    else
      let l := block_count m
      if m < 0 then .error Fault.length_error
      else if !in_int_range (l * (block_width : Int)) then .error Fault.overflow
      else
        let (stm2, buf) := stm1.read bytes (l * (block_width : Int)).toNat
        if stm2.failbit then .ok (stm2, { rec with col_ := col })
        else
          match block_loop l.toNat 0 (buf.drop header_width) m rec.elevations_ with
          | .error e => .error e
          | .ok (_, _, elevations) => .ok (stm2, { col_ := col, elevations_ := elevations })

/-! ## `DEMFile` (lines 202-261) -/

/-- The class `DEMFile`. -/
structure DEMFile where
  info_ : DEMInfo
  records_ : List DEMRecord
deriving DecidableEq, Repr

/-- A default-constructed `DEMFile`, as `main` declares it. -/
def DEMFile.new : DEMFile := { info_ := DEMInfo.new, records_ := [] }

/-- The loop of the file decoder (lines 241-246), `todo` being the iterations
`cols - i` still to run: each one decodes into a fresh `DEMRecord` and
appends it with `emplace_back`, whatever the state of the stream. -/
def record_loop (bytes : List Char) :
    Nat → IStream → List DEMRecord → Except Fault (IStream × List DEMRecord)
  | 0, stm, records => .ok (stm, records)
  | todo + 1, stm, records =>
    match DEMRecord.read bytes stm DEMRecord.new with
    | .error e => .error e
    | .ok (stm1, rec) => record_loop bytes todo stm1 (records ++ [rec])

/-- The file decoder `operator>>(std::istream&, DEMFile&)` (lines 233-249).
The call `dimensions()` reads both `rows_` and `cols_`; a negative `cols`
makes `reserve(cols)` throw `std::length_error`. -/
def DEMFile.read (bytes : List Char) (stm : IStream) (f : DEMFile) :
    Except Fault (IStream × DEMFile) :=
  let (stm1, info) := DEMInfo.read bytes stm f.info_
  match info.rows_, info.cols_ with
  | some _, some cols =>
    if cols < 0 then .error Fault.length_error
    else
      match record_loop bytes cols.toNat stm1 f.records_ with
      | .error e => .error e
      | .ok (stm2, records) => .ok (stm2, { info_ := info, records_ := records })
  | _, _ => .error Fault.indeterminate

/-! ## Specification-side definitions and concrete inputs -/

deriving instance DecidableEq for Except

/-- The block count in the words of the specification, `ceil(m * 6 / 1024)`,
written with the floor division of `Int`. -/
def ceil_block_count (m : Int) : Int := -((-(m * 6)) / 1024)

/-- Successive record decodes on the file `bytes`: `Decodes bytes s rs t` says
that decoding fresh records one after the other from stream state `s`
returns normally each time, yields `rs` in this order and ends in state `t`. -/
inductive Decodes (bytes : List Char) : IStream → List DEMRecord → IStream → Prop where
  | nil (s : IStream) : Decodes bytes s [] s
  | cons {s s1 t : IStream} {r : DEMRecord} {rs : List DEMRecord} :
      DEMRecord.read bytes s DEMRecord.new = .ok (s1, r) → Decodes bytes s1 rs t →
      Decodes bytes s (r :: rs) t

/-- Whether each of the next `n` record decodes returns normally and leaves the
stream without `failbit`, that is, its bulk read succeeded. -/
def reads_succeed (bytes : List Char) : Nat → IStream → Bool
  | 0, _ => true
  | n + 1, s =>
    match DEMRecord.read bytes s DEMRecord.new with
    | .ok (s1, _) => !s1.failbit && reads_succeed bytes n s1
    | .error _ => false

/-- The text `t` followed by spaces up to width `n`. -/
def pad_right (n : Nat) (t : List Char) : List Char := t ++ List.replicate (n - t.length) ' '

/-- A six-byte sample field: the text `t` right-aligned. -/
def sample_field (t : List Char) : List Char := List.replicate (6 - t.length) ' ' ++ t

/-- The same sample field `n` times. -/
def sample_fields (n : Nat) (t : List Char) : List Char :=
  (List.replicate n (sample_field t)).flatten

/-- A one-block record declaring 146 samples, all fields holding 7: the 146-byte
header, 146 fields and 2 bytes of padding. -/
def record_146 : List Char :=
  pad_right 146 "1 1 146 1".toList ++ (sample_fields 146 ['7'] ++ [' ', ' '])

/-- The record `record_146` with letters in its 37th field (slot 36). -/
def record_146_bad_37 : List Char :=
  pad_right 146 "1 1 146 1".toList ++ (sample_fields 36 ['7'] ++ ("abcdef".toList
    ++ (sample_fields 109 ['7'] ++ [' ', ' '])))

/-- A two-block record declaring 171 samples with letters in its first field:
145 more fields holding 7 in block 0, then 170 fields holding 8 in block 1. -/
def record_171_bad_first : List Char :=
  pad_right 146 "1 1 171 1".toList ++ ("abcdef".toList ++ (sample_fields 145 ['7'] ++ ([' ', ' ']
    ++ (sample_fields 170 ['8'] ++ List.replicate 4 ' '))))

/-- A two-block record of column `c` declaring 171 samples: 146 fields holding 7
in block 0 and 25 fields holding 8 in block 1, the rest of the block blank. -/
def record_171 (c : List Char) : List Char :=
  pad_right 146 ("1 ".toList ++ c ++ " 171 1".toList) ++ (sample_fields 146 ['7'] ++ ([' ', ' ']
    ++ pad_right 1024 (sample_fields 25 ['8'])))

/-- The samples of a record built by `record_171`. -/
def samples_171 : List Int := List.replicate 146 7 ++ List.replicate 25 8

/-- A 1024-byte file header: name, description, and the dimension text at offset 853. -/
def header_block (name description dims : List Char) : List Char :=
  pad_right 1024 (pad_right 853 (pad_right 40 name ++ pad_right 40 description) ++ dims)

/-- The header of `header_block "ELEV1" "" dims` as decoded when `dims` holds
the two numbers `rows` and `cols`. -/
def info_elev1 (rows cols : Int) : DEMInfo :=
  { fname_ := "ELEV1".toList ++ List.replicate 35 ' ', description_ := [],
    rows_ := some rows, cols_ := some cols }

/-- A file of three columns: the header block, three records of 171 samples and
some bytes after the last record. -/
def file_three_columns : List Char :=
  header_block "ELEV1".toList [] "5 3".toList ++ (record_171 ['1'] ++ (record_171 ['2']
    ++ (record_171 ['3'] ++ "trailing bytes".toList)))

/-- A file of two columns whose second record is cut off after 500 bytes. -/
def file_truncated : List Char :=
  header_block "ELEV1".toList [] "5 2".toList ++ (record_171 ['1'] ++ (record_171 ['2']).take 500)

/-! ## Output: the `operator<<` of the three classes (lines 57-64, 178-195, 251-256) -/

/-- Decimal text of an unsigned value, as `operator<<` writes it. -/
def dec_nat (n : Nat) : List Char := Nat.toDigits 10 n

/-- Decimal text of an `int`, as `operator<<` writes it: a minus sign before a
negative value. -/
def dec_int (z : Int) : List Char := if z < 0 then '-' :: dec_nat z.natAbs else dec_nat z.toNat

/-- The header formatter `operator<<(std::ostream&, const DEMInfo&)` (lines
57-64): the text written.  Reading `rows_` or `cols_` when nothing was
extracted into it is undefined. -/
def DEMInfo.print (inf : DEMInfo) : Except Fault (List Char) :=
  match inf.rows_, inf.cols_ with
  | some rows, some cols =>
    .ok ("FileName   : ".toList ++ inf.fname_
      ++ "\nDescription: ".toList
      ++ (if !inf.description_.isEmpty then inf.description_ else "<none>".toList)
      ++ "\nRows       : ".toList ++ dec_int rows
      ++ "\nColumns    : ".toList ++ dec_int cols)
  | _, _ => .error Fault.indeterminate

/-- The loop of the record formatter (lines 184-193) over the samples still to
write, with the counter `i`, the separator `sep` and the text `out` written so
far.  The increment `i++` must stay in the range of `int`. -/
def DEMRecord.print_loop : List Int → Int → List Char → List Char → Except Fault (List Char)
  | [], _, _, out => .ok out
  | z :: zs, i, sep, out =>
    if INT_MAX < i + 1 then .error Fault.overflow
    else if Int.tmod i 10 = 0 then
      DEMRecord.print_loop zs (i + 1) ", ".toList (out ++ Char.ofNat 10 :: dec_int z)
    else
      DEMRecord.print_loop zs (i + 1) ", ".toList (out ++ sep ++ dec_int z)

/-- The record formatter `operator<<(std::ostream&, const DEMRecord&)` (lines 178-195). -/
def DEMRecord.print (rec : DEMRecord) : Except Fault (List Char) :=
  DEMRecord.print_loop rec.elevations_ 0 []
    ("\nColumn: ".toList ++ dec_int rec.col_
      ++ "\nPoints: ".toList ++ dec_nat rec.elevations_.length)

/-- The file formatter `operator<<(std::ostream&, const DEMFile&)` (lines
251-256): the header, then the number of records. -/
def DEMFile.print (f : DEMFile) : Except Fault (List Char) :=
  match DEMInfo.print f.info_ with
  | .error e => .error e
  | .ok text => .ok (text ++ "\nRecords    : ".toList ++ dec_nat f.records_.length)

/-! ## `main` (lines 263-288) -/

/-- What the file system holds at a path: nothing, something `std::ifstream`
cannot open, or a file with its content. -/
inductive PathEntry where
  | missing
  | unreadable
  | file (bytes : List Char)
deriving DecidableEq, Repr

/-- A finished run of the program: the value `main` returns and what it wrote to
`std::cout` and `std::cerr`. -/
structure Run where
  exit_code : Int
  out : List Char
  err : List Char
deriving DecidableEq, Repr

/-- A path as `operator<<` writes it (`std::quoted`): between double quotes,
with a backslash before each double quote and backslash. -/
def quoted (p : List Char) : List Char :=
  Char.ofNat 34 :: (p.flatMap (fun c =>
    if c = Char.ofNat 34 ∨ c = Char.ofNat 92 then [Char.ofNat 92, c] else [c])) ++ [Char.ofNat 34]

/-- The function `main`, `argv` holding the `argc` arguments with the program
name first and `fs` the file system.  A stream that could not be opened has
`failbit`.  An exception nobody catches, or undefined behaviour, ends the run
with a `Fault`. -/
def main (argv : List (List Char)) (fs : List Char → PathEntry) : Except Fault Run :=
  match argv with
  | [_, path] =>
    match fs path with
    | .missing =>
      .ok { exit_code := -1, out := []
            err := "No input file named ".toList ++ quoted path ++ "\n".toList }
    | entry =>
      let bytes := match entry with
        | .file b => b
        | _ => []
      let stm : IStream := match entry with
        | .file _ => IStream.fresh
        | _ => { IStream.fresh with failbit := true }
      match DEMFile.read bytes stm DEMFile.new with
      | .error e => .error e
      | .ok (_, f) =>
        match DEMFile.print f with
        | .error e => .error e
        | .ok report =>
          .ok { exit_code := 0
                out := "Reading ".toList ++ quoted path ++ "...".toList ++ "Done.\n".toList
                  ++ report ++ "\n".toList
                err := [] }
  | _ => .ok { exit_code := -1, out := [], err := "No input file specified.\n".toList }

/-! ## Specification-side definitions for the record layout and the report -/

/-- Offset of sample slot `k` in the record buffer: 146 + 6k in block 0, and
1024b + 6j for slot j of a later block b. -/
def slot_offset (k : Nat) : Nat :=
  if k < 146 then 146 + 6 * k else 1024 * (1 + (k - 146) / 170) + 6 * ((k - 146) % 170)

/-- The six bytes at offset `o` of a buffer. -/
def field_at (buf : List Char) (o : Nat) : List Char := (buf.drop o).take int_field_width

/-- The buffer of the bulk read of a record that starts at `start` and declares
`m` samples: `block_count m * 1024` bytes of the file. -/
def record_buffer (bytes : List Char) (start : Nat) (m : Int) : List Char :=
  (bytes.drop start).take (block_count m * 1024).toNat

/-- The samples ten to a line: line `j` holds the samples `10j` to `10j + 9`. -/
def sample_lines (zs : List Int) : List (List Int) :=
  (List.range ((zs.length + 9) / 10)).map (fun j => (zs.drop (10 * j)).take 10)

/-- One line of samples: a newline, then the decimal values with `", "` between them. -/
def format_line (line : List Int) : List Char :=
  Char.ofNat 10 :: (", ".toList).intercalate (line.map dec_int)

/-- A one-block record declaring no samples. -/
def record_zero : List Char := pad_right 1024 "1 1 0 1".toList

/-- A file of two columns whose first record declares no samples. -/
def file_zero_first : List Char :=
  header_block "ELEV1".toList [] "5 2".toList ++ (record_zero ++ record_171 ['2'])

/-- A file system holding the file `bytes` at the path `dem` and nothing else. -/
def fs_single (bytes : List Char) (path : List Char) : PathEntry :=
  if path = "dem".toList then PathEntry.file bytes else PathEntry.missing

/-! ## Lemmas on the stream operations -/

theorem failbit_of_good {s : IStream} (hgood : s.good = true) : s.failbit = false := by
  cases hf : s.failbit <;> simp_all [IStream.good]

theorem eofbit_of_good {s : IStream} (hgood : s.good = true) : s.eofbit = false := by
  cases he : s.eofbit <;> simp_all [IStream.good]

theorem rest_fresh (bytes : List Char) : IStream.fresh.rest bytes = bytes := by
  simp [IStream.rest, IStream.fresh]

theorem read_of_good (bytes : List Char) (s : IStream) (n : Nat) (hgood : s.good = true)
    (havail : n ≤ (s.rest bytes).length) :
    s.read bytes n = ({ s with pos := s.pos + n }, (s.rest bytes).take n) := by
  simp [IStream.read, hgood, havail]

theorem read_failbit_of_short (bytes : List Char) (s : IStream) (n : Nat)
    (hshort : (s.rest bytes).length < n) : (s.read bytes n).1.failbit = true := by
  unfold IStream.read
  by_cases hg : s.good = true
  · have hne : ¬ (n ≤ (s.rest bytes).length) := Nat.not_le.mpr hshort
    simp [hg, hne]
  · simp [hg]

/-- Removing the prefix found by `find_first_not_of` removes exactly the leading spaces. -/
theorem drop_find_first_not_of_space (l : List Char) :
    l.drop (match find_first_not_of_space l with
      | some i => min i l.length
      | none => l.length) = l.dropWhile (fun c => c == ' ') := by
  induction l with
  | nil => simp [find_first_not_of_space]
  | cons c cs ih =>
    by_cases hc : c = ' '
    · subst hc
      cases hfind : find_first_not_of_space cs with
      | none => simp [find_first_not_of_space, hfind] at ih ⊢; exact ih
      | some i =>
        simp only [find_first_not_of_space, hfind, bne_self_eq_false, Bool.false_eq_true,
          ite_false, Option.map_some', List.length_cons, Nat.add_min_add_right, List.drop_succ_cons,
          List.dropWhile_cons, beq_self_eq_true, ite_true] at ih ⊢
        exact ih
    · simp [find_first_not_of_space, hc]

/-- A successful `read_fixed_field`: the bytes read without their leading spaces. -/
theorem read_fixed_field_of_good (w : Nat) (bytes : List Char) (stm : IStream)
    (hgood : stm.good = true) (havail : w ≤ (stm.rest bytes).length) :
    read_fixed_field w bytes stm
      = (((stm.rest bytes).take w).dropWhile (fun c => c == ' '),
         { stm with pos := stm.pos + w }) := by
  unfold read_fixed_field
  rw [read_of_good bytes stm w hgood havail]
  simp only [failbit_of_good hgood, Bool.not_false, ite_true]
  rw [drop_find_first_not_of_space]

theorem dropWhile_space_head (l : List Char) :
    (l.dropWhile (fun c => c == ' ')).head? ≠ some ' ' := by
  induction l with
  | nil => simp
  | cons c cs ih =>
    by_cases hc : c = ' '
    · subst hc; simpa using ih
    · simp [List.dropWhile_cons, hc]

theorem takeWhile_space_eq_replicate (l : List Char) :
    l.takeWhile (fun c => c == ' ') = List.replicate (l.takeWhile (fun c => c == ' ')).length ' ' := by
  induction l with
  | nil => simp
  | cons c cs ih =>
    by_cases hc : c = ' '
    · subst hc
      simp only [List.takeWhile_cons, beq_self_eq_true, ite_true, List.length_cons,
        List.replicate_succ]
      rw [← ih]
    · simp [List.takeWhile_cons, hc]

theorem drop_eq_cons_of_getElem? {l : List Char} {n : Nat} {a : Char} (h : l[n]? = some a) :
    l.drop n = a :: l.drop (n + 1) := by
  obtain ⟨hlt, heq⟩ := List.getElem?_eq_some_iff.mp h
  rw [List.drop_eq_getElem_cons hlt, heq]

/-- Four known bytes at an offset determine the rest of the data from there. -/
theorem drop_eq_of_four {l : List Char} {n : Nat} {a b c d : Char} (ha : l[n]? = some a)
    (hb : l[n + 1]? = some b) (hc : l[n + 2]? = some c) (hd : l[n + 3]? = some d) :
    l.drop n = a :: b :: c :: d :: l.drop (n + 4) := by
  rw [drop_eq_cons_of_getElem? ha, drop_eq_cons_of_getElem? hb, drop_eq_cons_of_getElem? hc,
    drop_eq_cons_of_getElem? hd]

theorem isdigit_of_isspace {c : Char} (hc : isspace c = true) : isdigit c = false := by
  simp only [isspace, isdigit, Bool.or_eq_true, beq_iff_eq, Bool.and_eq_true, decide_eq_true_eq,
    Bool.and_eq_false_iff, decide_eq_false_iff_not] at hc ⊢
  omega

theorem isspace_of_isdigit {c : Char} (hc : isdigit c = true) : isspace c = false := by
  cases h : isspace c with
  | false => rfl
  | true => rw [isdigit_of_isspace h] at hc; cases hc

theorem not_sign_of_isdigit {c : Char} (hc : isdigit c = true) : c ≠ '-' ∧ c ≠ '+' := by
  constructor <;> (intro h; subst h; revert hc; decide)

/-- The conversion of a run of digits that ends before a character that is no digit. -/
theorem num_get_long_of_digits (ds tl : List Char) (c : Char)
    (hds : ∀ x ∈ ds, isdigit x = true) (hne : ds ≠ []) (hc : isdigit c = false)
    (hfit : (digits_value ds : Int) ≤ LONG_MAX) :
    num_get_long (ds ++ c :: tl)
      = { consumed := ds.length, value := digits_value ds, fail := false, eof := false } := by
  obtain ⟨d, ds1, rfl⟩ := List.exists_cons_of_ne_nil hne
  have hd := not_sign_of_isdigit (hds d (List.mem_cons_self d ds1))
  have htake : List.takeWhile isdigit (d :: ds1 ++ c :: tl) = d :: ds1 := by
    rw [List.takeWhile_append_of_pos hds, List.takeWhile_cons_of_neg (by simp [hc])]
    simp
  have hdrop : List.dropWhile isdigit (d :: ds1 ++ c :: tl) = c :: tl := by
    rw [List.dropWhile_append_of_pos hds, List.dropWhile_cons_of_neg (by simp [hc])]
  have hlo : ¬ ((digits_value (d :: ds1) : Int) < LONG_MIN) := by unfold LONG_MIN; omega
  have hhi : ¬ (LONG_MAX < (digits_value (d :: ds1) : Int)) := by omega
  simp only [num_get_long, List.cons_append, List.head?_cons]
  simp only [Option.some_beq_some, beq_eq_false_iff_ne.mpr hd.1, beq_eq_false_iff_ne.mpr hd.2,
    Bool.or_self, Bool.false_eq_true, ite_false]
  rw [← List.cons_append, htake, hdrop]
  simp [clamp, hlo, hhi]

/-- Extraction of an unsigned number that fits `int`, after white space and
before a character that is no digit: the stream stays good. -/
theorem extract_int_of_number (bytes : List Char) (s : IStream) (old : Option Int)
    (ws ds tl : List Char) (c : Char)
    (hgood : s.good = true) (hrest : s.rest bytes = ws ++ (ds ++ c :: tl))
    (hws : ∀ x ∈ ws, isspace x = true)
    (hds : ∀ x ∈ ds, isdigit x = true) (hne : ds ≠ []) (hc : isdigit c = false)
    (hfit : (digits_value ds : Int) ≤ INT_MAX) :
    s.extract_int bytes old
      = ({ pos := s.pos + ws.length + ds.length, failbit := false, eofbit := false },
         some (digits_value ds : Int)) := by
  obtain ⟨d, ds1, rfl⟩ := List.exists_cons_of_ne_nil hne
  have hd : isspace d = false := isspace_of_isdigit (hds d (List.mem_cons_self d ds1))
  have htake : List.takeWhile isspace (ws ++ (d :: ds1 ++ c :: tl)) = ws := by
    rw [List.takeWhile_append_of_pos hws, List.cons_append,
      List.takeWhile_cons_of_neg (by simp [hd])]
    simp
  have hdrop : List.dropWhile isspace (ws ++ (d :: ds1 ++ c :: tl)) = d :: ds1 ++ c :: tl := by
    rw [List.dropWhile_append_of_pos hws, List.cons_append,
      List.dropWhile_cons_of_neg (by simp [hd])]
  have hnum := num_get_long_of_digits (d :: ds1) tl c hds (by simp) hc
    (by unfold LONG_MAX; unfold INT_MAX at hfit; omega)
  have hlo : INT_MIN ≤ (digits_value (d :: ds1) : Int) := by unfold INT_MIN; omega
  unfold IStream.extract_int
  simp only [hgood, hrest, htake, hdrop, hnum]
  simp [in_int_range, clamp, hlo, hfit, Int.not_lt.mpr hlo, Int.not_lt.mpr hfit]

theorem clamp_nonneg (lo hi v : Int) (hhi : 0 ≤ hi) (hv : 0 ≤ v) : 0 ≤ clamp lo hi v := by
  unfold clamp
  split
  · omega
  · split <;> omega

/-- Without a leading minus sign the converted value is not negative. -/
theorem num_get_long_nonneg (cs : List Char) (hsign : cs.head? ≠ some '-') :
    0 ≤ (num_get_long cs).value := by
  have hneg : (cs.head? == some '-') = false := by simpa using hsign
  simp only [num_get_long, hneg, Bool.false_or, Bool.false_eq_true, ite_false]
  split_ifs
  all_goals first
    | exact le_refl 0
    | exact clamp_nonneg _ _ _ (by decide) (Int.ofNat_nonneg _)

/-- What an extraction stores is never negative unless the text starts with a minus sign. -/
theorem extract_int_nonneg (bytes : List Char) (s : IStream) (c : Int)
    (hsign : ((s.rest bytes).dropWhile isspace).head? ≠ some '-')
    (hval : (s.extract_int bytes none).2 = some c) : 0 ≤ c := by
  unfold IStream.extract_int at hval
  by_cases hg : s.good = true
  · by_cases hempty : ((s.rest bytes).dropWhile isspace).isEmpty = true
    · simp [hg, hempty] at hval
    · simp only [hg, hempty, Bool.not_true, Bool.false_eq_true, ite_false, Option.some.injEq]
        at hval
      rw [← hval]
      exact clamp_nonneg _ _ _ (by decide) (num_get_long_nonneg _ hsign)
  · simp [hg] at hval

/-! ## Lemmas on the decoders -/

/-- The header decoder on a fresh stream over at least 80 bytes: both fixed
fields are read, then the dimensions are extracted at offset 853. -/
theorem DEMInfo_read_of_fresh (bytes : List Char) (inf : DEMInfo) (h80 : 80 ≤ bytes.length) :
    DEMInfo.read bytes IStream.fresh inf
      = (((IStream.extract_int bytes ⟨853, false, false⟩ inf.rows_).1.extract_int bytes
            inf.cols_).1.seekg 1024,
         { fname_ := (bytes.take 40).dropWhile (fun c => c == ' ')
           description_ := ((bytes.drop 40).take 40).dropWhile (fun c => c == ' ')
           rows_ := (IStream.extract_int bytes ⟨853, false, false⟩ inf.rows_).2
           cols_ := ((IStream.extract_int bytes ⟨853, false, false⟩ inf.rows_).1.extract_int bytes
              inf.cols_).2 }) := by
  unfold DEMInfo.read
  rw [read_fixed_field_of_good 40 bytes IStream.fresh rfl (by rw [rest_fresh]; omega)]
  simp only [rest_fresh]
  rw [read_fixed_field_of_good 40 bytes _ (by simp [IStream.good, IStream.fresh])
    (by simp [IStream.rest, IStream.fresh]; omega)]
  simp [IStream.seekg, IStream.fresh, IStream.rest]

theorem record_loop_zero (bytes : List Char) (s : IStream) (acc : List DEMRecord) :
    record_loop bytes 0 s acc = .ok (s, acc) := rfl

theorem record_loop_succ (bytes : List Char) (n : Nat) (s : IStream) (acc : List DEMRecord) :
    record_loop bytes (n + 1) s acc
      = match DEMRecord.read bytes s DEMRecord.new with
        | .error e => .error e
        | .ok (s1, r) => record_loop bytes n s1 (acc ++ [r]) := rfl

theorem record_loop_of_decodes {bytes : List Char} {s t : IStream} {rs : List DEMRecord}
    (h : Decodes bytes s rs t) :
    ∀ (k : Nat) (acc : List DEMRecord),
      record_loop bytes (rs.length + k) s acc = record_loop bytes k t (acc ++ rs) := by
  induction h with
  | nil s => intro k acc; simp
  | cons hread _ ih =>
    intro k acc
    rw [List.length_cons, Nat.add_right_comm, record_loop_succ, hread]
    simp only
    rw [ih k]
    simp

theorem decodes_of_record_loop (bytes : List Char) (n : Nat) :
    ∀ (s t : IStream) (acc out : List DEMRecord), record_loop bytes n s acc = .ok (t, out) →
      ∃ rs, out = acc ++ rs ∧ rs.length = n ∧ Decodes bytes s rs t := by
  induction n with
  | zero =>
    intro s t acc out h
    rw [record_loop_zero] at h
    simp only [Except.ok.injEq, Prod.mk.injEq] at h
    exact ⟨[], by simp [h.2], rfl, h.1 ▸ Decodes.nil s⟩
  | succ n ih =>
    intro s t acc out h
    rw [record_loop_succ] at h
    cases hread : DEMRecord.read bytes s DEMRecord.new with
    | error e => rw [hread] at h; simp at h
    | ok p =>
      obtain ⟨s1, r⟩ := p
      rw [hread] at h
      obtain ⟨rs, hout, hlen, hdec⟩ := ih s1 t (acc ++ [r]) out h
      exact ⟨r :: rs, by simp [hout], by simp [hlen], Decodes.cons hread hdec⟩

theorem reads_succeed_succ (bytes : List Char) (n : Nat) (s : IStream) :
    reads_succeed bytes (n + 1) s
      = match DEMRecord.read bytes s DEMRecord.new with
        | .ok (s1, _) => !s1.failbit && reads_succeed bytes n s1
        | .error _ => false := rfl

theorem decodes_of_reads_succeed (bytes : List Char) (n : Nat) :
    ∀ s : IStream, reads_succeed bytes n s = true →
      ∃ rs t, rs.length = n ∧ Decodes bytes s rs t := by
  induction n with
  | zero => intro s _; exact ⟨[], s, rfl, Decodes.nil s⟩
  | succ n ih =>
    intro s h
    rw [reads_succeed_succ] at h
    cases hread : DEMRecord.read bytes s DEMRecord.new with
    | error e => rw [hread] at h; simp at h
    | ok p =>
      obtain ⟨s1, r⟩ := p
      rw [hread] at h
      simp only [Bool.and_eq_true] at h
      obtain ⟨rs, t, hlen, hdec⟩ := ih s1 h.2
      exact ⟨r :: rs, t, by simp [hlen], Decodes.cons hread hdec⟩

/-- The file decoder once the header gave both dimensions with `cols` not negative. -/
theorem DEMFile_read_of_header (bytes : List Char) (stm stm1 : IStream) (info : DEMInfo)
    (rows cols : Int)
    (hheader : DEMInfo.read bytes stm DEMInfo.new = (stm1, info))
    (hrows : info.rows_ = some rows) (hcols : info.cols_ = some cols) (hnonneg : 0 ≤ cols) :
    DEMFile.read bytes stm DEMFile.new
      = match record_loop bytes cols.toNat stm1 [] with
        | .error e => .error e
        | .ok (stm2, records) => .ok (stm2, { info_ := info, records_ := records }) := by
  unfold DEMFile.read
  simp only [DEMFile.new, hheader, hrows, hcols, Int.not_lt.mpr hnonneg, ite_false]

/-- The file decoder when `cols` successive record decodes return normally. -/
theorem DEMFile_read_of_decodes (bytes : List Char) (stm stm1 stm2 : IStream) (info : DEMInfo)
    (rows cols : Int) (records : List DEMRecord)
    (hheader : DEMInfo.read bytes stm DEMInfo.new = (stm1, info))
    (hrows : info.rows_ = some rows) (hcols : info.cols_ = some cols)
    (hdec : Decodes bytes stm1 records stm2) (hlen : (records.length : Int) = cols) :
    DEMFile.read bytes stm DEMFile.new = .ok (stm2, { info_ := info, records_ := records }) := by
  have hnonneg : 0 ≤ cols := by omega
  rw [DEMFile_read_of_header bytes stm stm1 info rows cols hheader hrows hcols hnonneg]
  have hn : cols.toNat = records.length := by omega
  have hloop := record_loop_of_decodes hdec 0 []
  rw [Nat.add_zero, record_loop_zero] at hloop
  rw [hn, hloop]
  simp

/-- A record whose bulk read finds too few bytes: the stream fails and the
record gets its column but no sample. -/
theorem DEMRecord_read_of_truncated (bytes : List Char) (stm stm1 : IStream) (rec : DEMRecord)
    (col m : Int)
    (hpeek : DEMRecord.peek bytes stm rec.col_ = (stm1, col, some m))
    (hm : 0 ≤ m) (hm6 : m * 6 ≤ INT_MAX) (hl : block_count m * 1024 ≤ INT_MAX)
    (htrunc : (stm1.rest bytes).length < (block_count m * 1024).toNat) :
    DEMRecord.read bytes stm rec
      = .ok ((stm1.read bytes (block_count m * 1024).toNat).1, { rec with col_ := col }) := by
  have hfail := read_failbit_of_short bytes stm1 _ htrunc
  have hlo : INT_MIN ≤ m * 6 := by unfold INT_MIN; omega
  have hl0 : 0 ≤ block_count m := by
    have hdiv : 0 ≤ Int.tdiv (m * (int_field_width : Int)) (block_width : Int) :=
      Int.tdiv_nonneg (by unfold int_field_width; omega) (by unfold block_width; omega)
    simp only [block_count]
    split <;> omega
  have hlo2 : INT_MIN ≤ block_count m * 1024 := by unfold INT_MIN; omega
  unfold DEMRecord.read
  simp only [hpeek]
  simp [in_int_range, int_field_width, block_width, hlo, hm6, hlo2, hl, Int.not_lt.mpr hm, hfail]

/-- The header decoder on the scenario of claim C8. -/
theorem DEMInfo_read_elev1 (bytes tl : List Char) (c : Char)
    (hname : bytes.take 40 = "ELEV1".toList ++ List.replicate 35 ' ')
    (hdesc : (bytes.drop 40).take 40 = List.replicate 40 ' ')
    (hdims : bytes.drop 853 = '5' :: ' ' :: '3' :: c :: tl) (hc : isspace c = true) :
    DEMInfo.read bytes IStream.fresh DEMInfo.new
      = ({ pos := 1024, failbit := false, eofbit := false }, info_elev1 5 3) := by
  have hlen : 857 ≤ bytes.length := by
    have h := congrArg List.length hdims
    simp only [List.length_drop, List.length_cons] at h
    omega
  have h854 : bytes.drop 854 = ' ' :: '3' :: c :: tl := by
    have h := congrArg (List.drop 1) hdims
    simpa [List.drop_drop] using h
  have hrows := extract_int_of_number bytes ⟨853, false, false⟩ DEMInfo.new.rows_
    [] ['5'] ('3' :: c :: tl) ' ' rfl hdims (by decide) (by decide) (by decide)
    (by decide) (by decide)
  have hcols := extract_int_of_number bytes ⟨854, false, false⟩ DEMInfo.new.cols_
    [' '] ['3'] tl c rfl h854 (by decide) (by decide) (by decide)
    (isdigit_of_isspace hc) (by decide)
  rw [DEMInfo_read_of_fresh bytes DEMInfo.new (by omega), hrows]
  simp only [List.length_nil, List.length_cons, Nat.add_zero]
  rw [hcols, hname, hdesc]
  simp only [IStream.seekg, Bool.false_eq_true, ite_false, Prod.mk.injEq, info_elev1,
    DEMInfo.mk.injEq]
  refine ⟨trivial, by decide, by decide, by decide, by decide⟩

/-! ## Evaluations on the concrete files -/

theorem header_three_columns :
    DEMInfo.read file_three_columns IStream.fresh DEMInfo.new
      = ({ pos := 1024, failbit := false, eofbit := false }, info_elev1 5 3) := by
  decide!

theorem first_of_three_columns :
    DEMRecord.read file_three_columns { pos := 1024, failbit := false, eofbit := false }
        DEMRecord.new
      = .ok ({ pos := 3072, failbit := false, eofbit := false },
             { col_ := 1, elevations_ := samples_171 }) := by
  decide!

theorem second_of_three_columns :
    DEMRecord.read file_three_columns { pos := 3072, failbit := false, eofbit := false }
        DEMRecord.new
      = .ok ({ pos := 5120, failbit := false, eofbit := false },
             { col_ := 2, elevations_ := samples_171 }) := by
  decide!

theorem third_of_three_columns :
    DEMRecord.read file_three_columns { pos := 5120, failbit := false, eofbit := false }
        DEMRecord.new
      = .ok ({ pos := 7168, failbit := false, eofbit := false },
             { col_ := 3, elevations_ := samples_171 }) := by
  decide!

theorem decodes_three_columns :
    Decodes file_three_columns { pos := 1024, failbit := false, eofbit := false }
      [{ col_ := 1, elevations_ := samples_171 }, { col_ := 2, elevations_ := samples_171 },
       { col_ := 3, elevations_ := samples_171 }]
      { pos := 7168, failbit := false, eofbit := false } :=
  Decodes.cons first_of_three_columns
    (Decodes.cons second_of_three_columns
      (Decodes.cons third_of_three_columns (Decodes.nil _)))

theorem header_truncated :
    DEMInfo.read file_truncated IStream.fresh DEMInfo.new
      = ({ pos := 1024, failbit := false, eofbit := false }, info_elev1 5 2) := by
  decide!

theorem first_of_truncated :
    DEMRecord.read file_truncated { pos := 1024, failbit := false, eofbit := false }
        DEMRecord.new
      = .ok ({ pos := 3072, failbit := false, eofbit := false },
             { col_ := 1, elevations_ := samples_171 }) := by
  decide!

theorem second_of_truncated :
    DEMRecord.read file_truncated { pos := 3072, failbit := false, eofbit := false }
        DEMRecord.new
      = .ok ({ pos := 3572, failbit := true, eofbit := true },
             { col_ := 2, elevations_ := [] }) := by
  decide!

/-! ## The record decoder: block count and sample extraction -/

/-- Claim C1 (code defect): a record declaring 146 samples, all of whose fields
parse, should decode to 146 samples.  The decoder computes a block count of 0
for it, reads no byte and returns no sample. -/
theorem C1_record_of_146_samples_decodes_to_none :
    record_146.length = 1024 ∧
    sscanf_d (sample_field ['7']) = (1, some 7) ∧
    block_count 146 = 0 ∧
    DEMRecord.read record_146 IStream.fresh DEMRecord.new
      = .ok (IStream.fresh, { col_ := 1, elevations_ := [] }) := by
  refine ⟨by decide!, by decide!, by decide!, by decide!⟩

/-- Claim C2 (code defect): the block count should be `ceil(m * 6 / 1024)`.  The
code tests `l % block_width` where the remainder of `m * 6` is meant: 146
samples give 0 blocks instead of 1, and 512 samples (3072 bytes, an exact
multiple) give 4 instead of 3; 171 samples give 2. -/
theorem C2_block_count_differs_from_ceiling :
    block_count 146 = 0 ∧ ceil_block_count 146 = 1 ∧
    block_count 171 = 2 ∧ ceil_block_count 171 = 2 ∧
    block_count 512 = 4 ∧ ceil_block_count 512 = 3 := by
  decide

/-- Claim C3 (code defect): decoding should stop for good at the first field that
does not parse.  The `break` leaves the inner loop only: with 171 declared
samples and letters in the first field the decoder goes on in block 1, two
bytes off the field grid, and returns 170 samples instead of none.  The
scenario of the specification (146 samples, bad 37th field) returns no sample
instead of 36, by the block count of 0.  A blank field makes `sscanf` return
`EOF`, which `!` does not catch: the loop goes on to append the unset `z`. -/
theorem C3_decoding_goes_on_after_a_bad_field :
    sscanf_d ((record_171_bad_first.drop header_width).take int_field_width) = (0, none) ∧
    DEMRecord.read record_171_bad_first IStream.fresh DEMRecord.new
      = .ok ({ pos := 2048, failbit := false, eofbit := false },
             { col_ := 1, elevations_ := List.replicate 145 7 ++ List.replicate 25 8 }) ∧
    sscanf_d ((record_146_bad_37.drop (header_width + int_field_width * 36)).take int_field_width)
      = (0, none) ∧
    DEMRecord.read record_146_bad_37 IStream.fresh DEMRecord.new
      = .ok (IStream.fresh, { col_ := 1, elevations_ := [] }) ∧
    sscanf_d (List.replicate 6 ' ') = (-1, none) ∧
    sample_loop 1 (List.replicate 6 ' ') 1 [] = .error Fault.indeterminate := by
  refine ⟨by decide!, by decide!, by decide!, by decide!, by decide!, by decide!⟩

/-! ## The file decoder -/

/-- Claim C4: when the header gives `cols >= 0` and each of the `cols` record
decodes that follow succeeds in its bulk read, the file decoder returns a file
with exactly `cols` records, which are the results of `cols` successive
record decodes in decode order.  Nothing is assumed on the bytes that follow
the last record. -/
theorem C4_file_decoder_decodes_columns_records (bytes : List Char) (stm stm1 : IStream)
    (info : DEMInfo) (rows cols : Int)
    (hheader : DEMInfo.read bytes stm DEMInfo.new = (stm1, info))
    (hrows : info.rows_ = some rows) (hcols : info.cols_ = some cols) (hnonneg : 0 ≤ cols)
    (hreads : reads_succeed bytes cols.toNat stm1 = true) :
    ∃ (stm2 : IStream) (records : List DEMRecord),
      DEMFile.read bytes stm DEMFile.new = .ok (stm2, { info_ := info, records_ := records }) ∧
      (records.length : Int) = cols ∧ Decodes bytes stm1 records stm2 := by
  obtain ⟨rs, t, hlen, hdec⟩ := decodes_of_reads_succeed bytes cols.toNat stm1 hreads
  have hlen2 : (rs.length : Int) = cols := by rw [hlen]; exact Int.toNat_of_nonneg hnonneg
  exact ⟨t, rs, DEMFile_read_of_decodes bytes stm stm1 t info rows cols rs hheader hrows hcols
    hdec hlen2, hlen2, hdec⟩

/-- A file of three columns with its three full records decodes to three
records, in file order, whatever follows the third record. -/
theorem C4_three_column_file :
    ∃ (stm2 : IStream) (records : List DEMRecord),
      DEMFile.read file_three_columns IStream.fresh DEMFile.new
        = .ok (stm2, { info_ := info_elev1 5 3, records_ := records }) ∧
      (records.length : Int) = 3 ∧
      Decodes file_three_columns { pos := 1024, failbit := false, eofbit := false }
        records stm2 :=
  C4_file_decoder_decodes_columns_records file_three_columns IStream.fresh
    { pos := 1024, failbit := false, eofbit := false }
    (info_elev1 5 3) 5 3 header_three_columns rfl rfl (by decide)
    (by
      rw [show (3 : Int).toNat = 2 + 1 from rfl, reads_succeed_succ, first_of_three_columns]
      simp only
      rw [reads_succeed_succ, second_of_three_columns]
      simp only
      rw [reads_succeed_succ, third_of_three_columns]
      rfl)

/-- Claim C5, as stated, fails: the second record of `file_truncated` declares
171 samples, needs 2048 bytes and finds 500, yet the file decoder returns
normally a file holding both records, the truncated one without samples. -/
theorem C5_truncated_file_is_returned :
    DEMRecord.peek file_truncated { pos := 3072, failbit := false, eofbit := false } (-1)
      = ({ pos := 3072, failbit := false, eofbit := false }, 2, some 171) ∧
    block_count 171 * 1024 = 2048 ∧
    (IStream.rest file_truncated { pos := 3072, failbit := false, eofbit := false }).length
      = 500 ∧
    DEMFile.read file_truncated IStream.fresh DEMFile.new
      = .ok ({ pos := 3572, failbit := true, eofbit := true },
             { info_ := info_elev1 5 2
               records_ := [{ col_ := 1, elevations_ := samples_171 },
                            { col_ := 2, elevations_ := [] }] }) :=
  ⟨by decide!, by decide, by decide!,
   DEMFile_read_of_decodes file_truncated IStream.fresh _ _ (info_elev1 5 2) 5 2 _
     header_truncated rfl rfl
     (Decodes.cons first_of_truncated (Decodes.cons second_of_truncated (Decodes.nil _))) rfl⟩

/-- Claim C5, amended: when the bulk read of the last record finds fewer bytes
than `block_count * 1024`, the file decoder does not abort: it appends this
record, with its column and no sample, and returns the file with all `cols`
records; the failure shows in `failbit` of the stream only. -/
theorem C5_truncated_last_record_is_appended (bytes : List Char) (stm stm1 stm2 stm3 : IStream)
    (info : DEMInfo) (rows cols col m : Int) (earlier : List DEMRecord)
    (hheader : DEMInfo.read bytes stm DEMInfo.new = (stm1, info))
    (hrows : info.rows_ = some rows) (hcols : info.cols_ = some cols)
    (hearlier : Decodes bytes stm1 earlier stm2) (hlast : (earlier.length : Int) + 1 = cols)
    (hpeek : DEMRecord.peek bytes stm2 DEMRecord.new.col_ = (stm3, col, some m))
    (hm : 0 ≤ m) (hm6 : m * 6 ≤ INT_MAX) (hl : block_count m * 1024 ≤ INT_MAX)
    (htrunc : (stm3.rest bytes).length < (block_count m * 1024).toNat) :
    ∃ stm4 : IStream,
      DEMFile.read bytes stm DEMFile.new
        = .ok (stm4, { info_ := info
                       records_ := earlier ++ [{ col_ := col, elevations_ := [] }] }) ∧
      stm4.failbit = true := by
  have hread := DEMRecord_read_of_truncated bytes stm2 stm3 DEMRecord.new col m hpeek hm hm6 hl
    htrunc
  refine ⟨(stm3.read bytes (block_count m * 1024).toNat).1, ?_,
    read_failbit_of_short bytes stm3 _ htrunc⟩
  have hnonneg : 0 ≤ cols := by omega
  rw [DEMFile_read_of_header bytes stm stm1 info rows cols hheader hrows hcols hnonneg]
  have hn : cols.toNat = earlier.length + 1 := by omega
  have hloop := record_loop_of_decodes hearlier 1 []
  rw [hn, hloop, record_loop_succ, hread]
  simp [record_loop_zero, DEMRecord.new]

/-- The file `file_truncated`: one full record, then the truncated last record. -/
theorem C5_truncated_file_example :
    ∃ stm4 : IStream,
      DEMFile.read file_truncated IStream.fresh DEMFile.new
        = .ok (stm4, { info_ := info_elev1 5 2
                       records_ := [{ col_ := 1, elevations_ := samples_171 }]
                          ++ [{ col_ := 2, elevations_ := [] }] }) ∧
      stm4.failbit = true :=
  C5_truncated_last_record_is_appended file_truncated IStream.fresh
    { pos := 1024, failbit := false, eofbit := false }
    { pos := 3072, failbit := false, eofbit := false }
    { pos := 3072, failbit := false, eofbit := false }
    (info_elev1 5 2) 5 2 2 171 [{ col_ := 1, elevations_ := samples_171 }]
    header_truncated rfl rfl (Decodes.cons first_of_truncated (Decodes.nil _)) (by decide)
    (by decide!) (by decide) (by decide) (by decide) (by decide!)

/-! ## `read_fixed_field` -/

/-- Claim C6: on a good stream with at least `w` bytes left, `read_fixed_field`
consumes exactly `w` bytes and returns them without their maximal run of
leading spaces: the field is `k` spaces followed by the token, the token does
not start with a space, and an all-space field gives the empty token. -/
theorem C6_read_fixed_field_trims_leading_spaces (w : Nat) (bytes : List Char) (stm : IStream)
    (hw : 0 < w) (hgood : stm.good = true) (havail : w ≤ (stm.rest bytes).length) :
    (read_fixed_field w bytes stm).2 = { stm with pos := stm.pos + w } ∧
    (∃ k : Nat,
      (stm.rest bytes).take w = List.replicate k ' ' ++ (read_fixed_field w bytes stm).1) ∧
    (read_fixed_field w bytes stm).1.head? ≠ some ' ' ∧
    ((stm.rest bytes).take w = List.replicate w ' ' → (read_fixed_field w bytes stm).1 = []) := by
  have _ := hw
  rw [read_fixed_field_of_good w bytes stm hgood havail]
  refine ⟨rfl, ⟨(((stm.rest bytes).take w).takeWhile (fun c => c == ' ')).length, ?_⟩,
    dropWhile_space_head _, ?_⟩
  · rw [← takeWhile_space_eq_replicate]
    exact (List.takeWhile_append_dropWhile _ _).symm
  · intro hall
    simp only [hall, List.dropWhile_eq_nil_iff]
    intro c hc
    simp [(List.mem_replicate.mp hc).2]

/-- The field `"  abc  "` is read as `"abc  "`, and seven spaces as the empty token. -/
theorem C6_read_fixed_field_examples :
    read_fixed_field 7 "  abc  ".toList IStream.fresh
      = ("abc  ".toList, { pos := 7, failbit := false, eofbit := false }) ∧
    (read_fixed_field 7 (List.replicate 7 ' ') IStream.fresh).1 = [] ∧
    (read_fixed_field 7 "  abc  ".toList IStream.fresh).1.head? ≠ some ' ' :=
  ⟨by decide, by decide,
    (C6_read_fixed_field_trims_leading_spaces 7 "  abc  ".toList IStream.fresh
      (by decide) (by decide) (by decide)).2.2.1⟩

/-- Claim C7, as stated, fails: with fewer than 40 bytes left `read_fixed_field`
returns the empty token as an ordinary value, the same value it returns for a
field of 40 spaces. -/
theorem C7_truncated_field_is_the_empty_token :
    (read_fixed_field 40 "ELEV1".toList IStream.fresh).1 = [] ∧
    (read_fixed_field 40 (List.replicate 40 ' ') IStream.fresh).1 = [] ∧
    (read_fixed_field 40 "ELEV1".toList IStream.fresh).1
      = (read_fixed_field 40 (List.replicate 40 ' ') IStream.fresh).1 := by
  decide

/-- Claim C7, amended: with fewer than `w` bytes left `read_fixed_field` returns
the empty token and sets `failbit` on the stream, whereas a read of `w`
available bytes on a good stream leaves `failbit` clear: the two outcomes differ
in the stream state only. -/
theorem C7_truncated_field_sets_failbit (w : Nat) (bytes : List Char) (stm : IStream)
    (hshort : (stm.rest bytes).length < w) :
    (read_fixed_field w bytes stm).1 = [] ∧ (read_fixed_field w bytes stm).2.failbit = true ∧
    (∀ (bytes0 : List Char) (stm0 : IStream), stm0.good = true →
      w ≤ (stm0.rest bytes0).length → (read_fixed_field w bytes0 stm0).2.failbit = false) := by
  have hfail := read_failbit_of_short bytes stm w hshort
  refine ⟨?_, ?_, ?_⟩
  · unfold read_fixed_field
    cases hread : stm.read bytes w with
    | mk stm1 buf => rw [hread] at hfail; simp at hfail; simp [hfail]
  · unfold read_fixed_field
    cases hread : stm.read bytes w with
    | mk stm1 buf => rw [hread] at hfail; simp at hfail; simp [hfail]
  · intro bytes0 stm0 hgood havail
    rw [read_fixed_field_of_good w bytes0 stm0 hgood havail]
    exact failbit_of_good hgood

/-- A stream holding only `"ELEV1"` cannot supply a field of 40 bytes. -/
theorem C7_truncated_field_example :
    (read_fixed_field 40 "ELEV1".toList IStream.fresh).1 = [] ∧
    (read_fixed_field 40 "ELEV1".toList IStream.fresh).2.failbit = true :=
  ⟨(C7_truncated_field_sets_failbit 40 "ELEV1".toList IStream.fresh (by decide)).1,
   (C7_truncated_field_sets_failbit 40 "ELEV1".toList IStream.fresh (by decide)).2.1⟩

/-! ## The header decoder -/

/-- Claim C8, as stated, fails: the decoded file name keeps the 35 spaces that
pad `ELEV1` to 40 bytes. -/
theorem C8_file_name_keeps_its_padding :
    (DEMInfo.read (header_block "ELEV1".toList [] "5 3".toList) IStream.fresh
        DEMInfo.new).2.fname_ = "ELEV1".toList ++ List.replicate 35 ' ' ∧
    (DEMInfo.read (header_block "ELEV1".toList [] "5 3".toList) IStream.fresh
        DEMInfo.new).2.fname_ ≠ "ELEV1".toList := by
  refine ⟨by decide!, by decide!⟩

/-- Claim C8, amended: for a source with `ELEV1` padded to 40 bytes at offset 0,
40 spaces at offset 40 and `5 3` followed by white space at offset 853, the
header decoder returns the file name `ELEV1` followed by its 35 padding
spaces, an empty description, 5 rows and 3 columns, with the stream good at
offset 1024; the file decoder's loop then runs for 3 records: every file it
returns holds exactly 3 records, decoded one after the other from offset
1024, and three successive record decodes make it return them. -/
theorem C8_elev1_header_and_three_records (bytes tl : List Char) (c : Char)
    (hname : bytes.take 40 = "ELEV1".toList ++ List.replicate 35 ' ')
    (hdesc : (bytes.drop 40).take 40 = List.replicate 40 ' ')
    (hdims : bytes.drop 853 = '5' :: ' ' :: '3' :: c :: tl) (hc : isspace c = true) :
    DEMInfo.read bytes IStream.fresh DEMInfo.new
      = ({ pos := 1024, failbit := false, eofbit := false },
         { fname_ := "ELEV1".toList ++ List.replicate 35 ' ', description_ := [],
           rows_ := some 5, cols_ := some 3 }) ∧
    (∀ (stm2 : IStream) (f : DEMFile),
      DEMFile.read bytes IStream.fresh DEMFile.new = .ok (stm2, f) →
        f.records_.length = 3 ∧
        Decodes bytes { pos := 1024, failbit := false, eofbit := false } f.records_ stm2) ∧
    (∀ (stm2 : IStream) (records : List DEMRecord),
      Decodes bytes { pos := 1024, failbit := false, eofbit := false } records stm2 →
        records.length = 3 →
        DEMFile.read bytes IStream.fresh DEMFile.new
          = .ok (stm2, { info_ := info_elev1 5 3, records_ := records })) := by
  have hheader := DEMInfo_read_elev1 bytes tl c hname hdesc hdims hc
  have hfile := DEMFile_read_of_header bytes IStream.fresh _ _ 5 3 hheader rfl rfl (by decide)
  refine ⟨hheader, ?_, ?_⟩
  · intro stm2 f hread
    rw [hfile] at hread
    cases hloop : record_loop bytes (3 : Int).toNat
        { pos := 1024, failbit := false, eofbit := false } [] with
    | error e => rw [hloop] at hread; simp at hread
    | ok p =>
      obtain ⟨t, out⟩ := p
      rw [hloop] at hread
      simp only [Except.ok.injEq, Prod.mk.injEq] at hread
      obtain ⟨rs, hout, hlen, hdec⟩ := decodes_of_record_loop _ _ _ _ _ _ hloop
      obtain ⟨ht, hf⟩ := hread
      subst ht hf
      simp only [List.nil_append] at hout
      subst hout
      exact ⟨by simpa using hlen, hdec⟩
  · intro stm2 records hdec hlen
    exact DEMFile_read_of_decodes bytes IStream.fresh _ stm2 (info_elev1 5 3) 5 3 records
      hheader rfl rfl hdec (by rw [hlen]; rfl)

/-- The file `file_three_columns` has the header of the scenario and decodes to
three records. -/
theorem C8_three_column_file :
    DEMInfo.read file_three_columns IStream.fresh DEMInfo.new
      = ({ pos := 1024, failbit := false, eofbit := false }, info_elev1 5 3) ∧
    DEMFile.read file_three_columns IStream.fresh DEMFile.new
      = .ok ({ pos := 7168, failbit := false, eofbit := false },
             { info_ := info_elev1 5 3
               records_ := [{ col_ := 1, elevations_ := samples_171 },
                            { col_ := 2, elevations_ := samples_171 },
                            { col_ := 3, elevations_ := samples_171 }] }) :=
  have h := C8_elev1_header_and_three_records file_three_columns
    (file_three_columns.drop 857) ' ' (by decide!) (by decide!)
    (drop_eq_of_four (by decide!) (by decide!) (by decide!) (by decide!)) (by decide)
  ⟨h.1, h.2.2 _ _ decodes_three_columns rfl⟩

/-- Claim C9, as stated, fails: with `5 x` at offset 853 header decoding raises
no error; it yields a header with 5 rows and 0 columns, and the file decoder
returns normally a file without records, the stream having `failbit`. -/
theorem C9_bad_second_dimension_gives_zero_columns :
    DEMFile.read (header_block "ELEV1".toList [] "5 x".toList) IStream.fresh DEMFile.new
      = .ok ({ pos := 855, failbit := true, eofbit := false },
             { info_ := info_elev1 5 0, records_ := [] }) := by
  decide!

/-- Claim C9, amended: when the text at offset 853 holds a number followed by
more input in which the second extraction finds no number (it stores 0 and
fails), header decoding still produces a header, with the parsed rows and 0
columns, and sets `failbit`; the file decoder then decodes no record and
returns normally a file without records. -/
theorem C9_second_dimension_without_number (bytes : List Char) (rows : Int)
    (stm4 stm5 : IStream) (h80 : 80 ≤ bytes.length)
    (hrows : IStream.extract_int bytes ⟨853, false, false⟩ none = (stm4, some rows))
    (hcols : stm4.extract_int bytes none = (stm5, some 0)) (hfail : stm5.failbit = true) :
    DEMInfo.read bytes IStream.fresh DEMInfo.new
      = ({ stm5 with eofbit := false },
         { fname_ := (bytes.take 40).dropWhile (fun c => c == ' ')
           description_ := ((bytes.drop 40).take 40).dropWhile (fun c => c == ' ')
           rows_ := some rows, cols_ := some 0 }) ∧
    DEMFile.read bytes IStream.fresh DEMFile.new
      = .ok ({ stm5 with eofbit := false },
             { info_ := { fname_ := (bytes.take 40).dropWhile (fun c => c == ' ')
                          description_ := ((bytes.drop 40).take 40).dropWhile (fun c => c == ' ')
                          rows_ := some rows, cols_ := some 0 }
               records_ := [] }) := by
  have hheader : DEMInfo.read bytes IStream.fresh DEMInfo.new
      = ({ stm5 with eofbit := false },
         { fname_ := (bytes.take 40).dropWhile (fun c => c == ' ')
           description_ := ((bytes.drop 40).take 40).dropWhile (fun c => c == ' ')
           rows_ := some rows, cols_ := some 0 }) := by
    rw [DEMInfo_read_of_fresh bytes DEMInfo.new h80]
    simp only [DEMInfo.new, hrows, hcols, IStream.seekg, hfail, ite_true]
  refine ⟨hheader, ?_⟩
  rw [DEMFile_read_of_header _ _ _ _ rows 0 hheader rfl rfl (le_refl 0)]
  rfl

/-- The header `5 x`: the first number parses, the second extraction stores 0 and fails. -/
theorem C9_bad_second_dimension_example :
    (DEMInfo.read (header_block "ELEV1".toList [] "5 x".toList) IStream.fresh
      DEMInfo.new).2.cols_ = some 0 ∧
    (DEMInfo.read (header_block "ELEV1".toList [] "5 x".toList) IStream.fresh
      DEMInfo.new).1 = { pos := 855, failbit := true, eofbit := false } :=
  have h := C9_second_dimension_without_number (header_block "ELEV1".toList [] "5 x".toList) 5
    { pos := 854, failbit := false, eofbit := false }
    { pos := 855, failbit := true, eofbit := false }
    (by decide!) (by decide!) (by decide!) rfl
  ⟨congrArg (fun r => r.2.cols_) h.1, congrArg (fun r => r.1) h.1⟩

/-- Claim C10, as stated, fails: with `5 -3` at offset 853 header decoding
succeeds (the stream stays good) and the decoded `cols_` is -3; the file
decoder then throws `std::length_error`. -/
theorem C10_negative_columns_are_decoded :
    DEMInfo.read (header_block "ELEV1".toList [] "5 -3".toList) IStream.fresh DEMInfo.new
      = ({ pos := 1024, failbit := false, eofbit := false }, info_elev1 5 (-3)) ∧
    DEMFile.read (header_block "ELEV1".toList [] "5 -3".toList) IStream.fresh DEMFile.new
      = .error Fault.length_error := by
  refine ⟨by decide!, by decide!⟩

/-- Claim C10, amended: for every source of at least 80 bytes whose second
number at offset 853 is written without a leading minus sign, the `cols_` the
header decoder produces is not negative. -/
theorem C10_columns_nonneg_without_minus_sign (bytes : List Char) (stm4 : IStream)
    (rows : Option Int) (c : Int) (h80 : 80 ≤ bytes.length)
    (hrows : IStream.extract_int bytes ⟨853, false, false⟩ none = (stm4, rows))
    (hsign : ((stm4.rest bytes).dropWhile isspace).head? ≠ some '-')
    (hcols : (DEMInfo.read bytes IStream.fresh DEMInfo.new).2.cols_ = some c) :
    0 ≤ c := by
  rw [DEMInfo_read_of_fresh bytes DEMInfo.new h80] at hcols
  simp only [DEMInfo.new, hrows] at hcols
  exact extract_int_nonneg bytes stm4 c hsign hcols

/-- The header `5 3`: no minus sign, 3 columns. -/
theorem C10_columns_nonneg_example :
    (DEMInfo.read (header_block "ELEV1".toList [] "5 3".toList) IStream.fresh
      DEMInfo.new).2.cols_ = some 3 ∧ (0 : Int) ≤ 3 :=
  ⟨by decide!,
   C10_columns_nonneg_without_minus_sign (header_block "ELEV1".toList [] "5 3".toList)
    { pos := 854, failbit := false, eofbit := false }
    (some 5) 3 (by decide!) (by decide!) (by decide!) (by decide!)⟩

/-! ## Lemmas on the sample loops -/

/-- The call `sscanf` stores a value only when it returns 1. -/
theorem sscanf_d_some {p : List Char} {r v : Int} (h : sscanf_d p = (r, some v)) : r = 1 := by
  unfold sscanf_d at h
  simp only at h
  split_ifs at h <;> simp_all

theorem sample_loop_zero (s : List Char) (m : Int) (acc : List Int) :
    sample_loop 0 s m acc = .ok (s, m, acc) := rfl

theorem sample_loop_succ (todo : Nat) (s : List Char) (m : Int) (acc : List Int) :
    sample_loop (todo + 1) s m acc
      = if m = 0 then .ok (s, m, acc)
        else if (s.take int_field_width).length < int_field_width then .error Fault.out_of_bounds
        else if (sscanf_d (s.take int_field_width)).1 = 0 then
          .ok (s.drop int_field_width, m, acc)
        else
          match (sscanf_d (s.take int_field_width)).2 with
          | none => .error Fault.indeterminate
          | some v => sample_loop todo (s.drop int_field_width) (m - 1) (acc ++ [v]) := by
  rw [sample_loop]

theorem block_loop_zero (block : Nat) (s : List Char) (m : Int) (acc : List Int) :
    block_loop 0 block s m acc = .ok (s, m, acc) := rfl

theorem block_loop_succ (todo block : Nat) (s : List Char) (m : Int) (acc : List Int) :
    block_loop (todo + 1) block s m acc
      = match sample_loop (if block ≠ 0 then samples_block_n else samples_block_0) s m acc with
        | .error e => .error e
        | .ok (s1, m1, acc1) =>
          block_loop todo (block + 1) (s1.drop (if block ≠ 0 then 4 else 2)) m1 acc1 := by
  rw [block_loop]

/-- Once the remaining count is zero the inner loop appends nothing. -/
theorem sample_loop_of_zero (todo : Nat) (s : List Char) (acc : List Int) :
    sample_loop todo s 0 acc = .ok (s, 0, acc) := by
  cases todo with
  | zero => rfl
  | succ n => rw [sample_loop_succ]; simp

/-- Once the remaining count is zero no block appends anything. -/
theorem block_loop_of_zero (todo : Nat) :
    ∀ (block : Nat) (s : List Char) (acc : List Int),
      ∃ s1, block_loop todo block s 0 acc = .ok (s1, 0, acc) := by
  induction todo with
  | zero => intro block s acc; exact ⟨s, rfl⟩
  | succ n ih =>
    intro block s acc
    rw [block_loop_succ, sample_loop_of_zero]
    exact ih _ _ _

/-- What a run of the inner loop does: it appends the values of the fields it
read, one for each unit the count goes down, and ends either at the end of its
quota or of the count, or just after the first field on which `sscanf` returns 0. -/
theorem sample_loop_spec (todo : Nat) :
    ∀ (s : List Char) (m : Int) (acc : List Int) (s1 : List Char) (m1 : Int) (acc1 : List Int),
      sample_loop todo s m acc = .ok (s1, m1, acc1) →
      ∃ new : List Int, acc1 = acc ++ new ∧ m1 = m - new.length ∧ new.length ≤ todo ∧
        (0 ≤ m → 0 ≤ m1) ∧
        (∀ (j : Nat) (v : Int), new[j]? = some v →
          sscanf_d ((s.drop (int_field_width * j)).take int_field_width) = (1, some v)) ∧
        ((s1 = s.drop (int_field_width * new.length) ∧ (new.length = todo ∨ m1 = 0)) ∨
         (new.length < todo ∧ s1 = s.drop (int_field_width * (new.length + 1)) ∧
          (sscanf_d ((s.drop (int_field_width * new.length)).take int_field_width)).1 = 0)) := by
  induction todo with
  | zero =>
    intro s m acc s1 m1 acc1 h
    rw [sample_loop_zero] at h
    simp only [Except.ok.injEq, Prod.mk.injEq] at h
    obtain ⟨rfl, rfl, rfl⟩ := h
    exact ⟨[], by simp, by simp, by simp, fun h => h, by simp, Or.inl ⟨by simp, Or.inl rfl⟩⟩
  | succ n ih =>
    intro s m acc s1 m1 acc1 h
    rw [sample_loop_succ] at h
    by_cases hm : m = 0
    · simp only [hm, ite_true, Except.ok.injEq, Prod.mk.injEq] at h
      obtain ⟨rfl, rfl, rfl⟩ := h
      exact ⟨[], by simp, by simp [hm], by simp, fun _ => le_refl 0, by simp,
        Or.inl ⟨by simp, Or.inr rfl⟩⟩
    · rw [if_neg hm] at h
      by_cases hlen : (s.take int_field_width).length < int_field_width
      · rw [if_pos hlen] at h
        cases h
      · rw [if_neg hlen] at h
        by_cases hr : (sscanf_d (s.take int_field_width)).1 = 0
        · rw [if_pos hr] at h
          simp only [Except.ok.injEq, Prod.mk.injEq] at h
          obtain ⟨rfl, rfl, rfl⟩ := h
          exact ⟨[], by simp, by simp, by simp, fun h => h, by simp,
            Or.inr ⟨by simp, by simp, by simpa using hr⟩⟩
        · rw [if_neg hr] at h
          cases hz : (sscanf_d (s.take int_field_width)).2 with
          | none => rw [hz] at h; cases h
          | some v =>
            rw [hz] at h
            simp only at h
            obtain ⟨new, hacc, hm1, hlen1, hnonneg, hval, hend⟩ := ih _ _ _ _ _ _ h
            have hfirst : sscanf_d (s.take int_field_width) = (1, some v) := by
              have hpair : sscanf_d (s.take int_field_width)
                  = ((sscanf_d (s.take int_field_width)).1, some v) := by
                rw [← hz]
              rw [hpair, sscanf_d_some hpair]
            refine ⟨v :: new, by simp [hacc], ?_, by simp; omega, ?_, ?_, ?_⟩
            · rw [hm1]; simp only [List.length_cons]; push_cast; ring
            · intro h0; exact hnonneg (by omega)
            · intro j w hj
              cases j with
              | zero =>
                simp only [List.getElem?_cons_zero, Option.some.injEq] at hj
                subst hj
                simpa using hfirst
              | succ j =>
                simp only [List.getElem?_cons_succ] at hj
                have := hval j w hj
                rw [List.drop_drop] at this
                rw [show int_field_width * (j + 1) = int_field_width + int_field_width * j by ring]
                exact this
            · rcases hend with ⟨hs1, hfull⟩ | ⟨hlt, hs1, hfail⟩
              · left
                refine ⟨?_, ?_⟩
                · rw [hs1, List.drop_drop, List.length_cons]
                  congr 1; ring
                · rcases hfull with hfull | hfull
                  · left; simp [hfull]
                  · right; exact hfull
              · right
                refine ⟨by simp; omega, ?_, ?_⟩
                · rw [hs1, List.drop_drop, List.length_cons]
                  congr 1; ring
                · rw [List.drop_drop] at hfail
                  rw [List.length_cons,
                    show int_field_width * (new.length + 1)
                      = int_field_width + int_field_width * new.length by ring]
                  exact hfail

/-- The blocks only append samples, one for each unit the count goes down, and
the count never goes below zero. -/
theorem block_loop_count (todo : Nat) :
    ∀ (block : Nat) (s : List Char) (m : Int) (acc : List Int) (s1 : List Char) (m1 : Int)
      (acc1 : List Int), block_loop todo block s m acc = .ok (s1, m1, acc1) →
      ∃ more : List Int, acc1 = acc ++ more ∧ m1 = m - more.length ∧ (0 ≤ m → 0 ≤ m1) := by
  induction todo with
  | zero =>
    intro block s m acc s1 m1 acc1 h
    rw [block_loop_zero] at h
    simp only [Except.ok.injEq, Prod.mk.injEq] at h
    obtain ⟨rfl, rfl, rfl⟩ := h
    exact ⟨[], by simp, by simp, fun h => h⟩
  | succ n ih =>
    intro block s m acc s1 m1 acc1 h
    rw [block_loop_succ] at h
    cases hs : sample_loop (if block ≠ 0 then samples_block_n else samples_block_0) s m acc with
    | error e => rw [hs] at h; cases h
    | ok r =>
      obtain ⟨s2, m2, acc2⟩ := r
      rw [hs] at h
      simp only at h
      obtain ⟨new, hacc2, hm2, _, hnn2, _, _⟩ := sample_loop_spec _ _ _ _ _ _ _ hs
      obtain ⟨more, hacc1, hm1, hnn1⟩ := ih _ _ _ _ _ _ _ h
      refine ⟨new ++ more, by rw [hacc1, hacc2, List.append_assoc], ?_, fun h0 => hnn1 (hnn2 h0)⟩
      rw [hm1, hm2, List.length_append]
      push_cast
      ring

/-- The inner loop stays inside a view that holds its whole quota of fields. -/
theorem sample_loop_in_bounds (todo : Nat) :
    ∀ (s : List Char) (m : Int) (acc : List Int), int_field_width * todo ≤ s.length →
      sample_loop todo s m acc ≠ .error Fault.out_of_bounds := by
  induction todo with
  | zero => intro s m acc _ h; rw [sample_loop_zero] at h; cases h
  | succ n ih =>
    intro s m acc hlen h
    rw [sample_loop_succ] at h
    have h6 : ¬ ((s.take int_field_width).length < int_field_width) := by
      rw [List.length_take]
      unfold int_field_width at hlen ⊢
      omega
    by_cases hm : m = 0
    · rw [if_pos hm] at h; cases h
    · rw [if_neg hm, if_neg h6] at h
      by_cases hr : (sscanf_d (s.take int_field_width)).1 = 0
      · rw [if_pos hr] at h; cases h
      · rw [if_neg hr] at h
        cases hz : (sscanf_d (s.take int_field_width)).2 with
        | none => rw [hz] at h; cases h
        | some v =>
          rw [hz] at h
          refine ih _ _ _ ?_ h
          rw [List.length_drop]
          unfold int_field_width at hlen ⊢
          omega

/-- The view after a run of the inner loop has lost at most its quota of fields. -/
theorem sample_loop_view_length (todo : Nat) (s : List Char) (m : Int) (acc : List Int)
    (s1 : List Char) (m1 : Int) (acc1 : List Int)
    (h : sample_loop todo s m acc = .ok (s1, m1, acc1)) :
    s.length ≤ s1.length + int_field_width * todo := by
  obtain ⟨new, _, _, hlen, _, _, hend⟩ := sample_loop_spec _ _ _ _ _ _ _ h
  rcases hend with ⟨hs1, _⟩ | ⟨hlt, hs1, _⟩
  · rw [hs1, List.length_drop]
    have : int_field_width * new.length ≤ int_field_width * todo := Nat.mul_le_mul_left _ hlen
    omega
  · rw [hs1, List.length_drop]
    have : int_field_width * (new.length + 1) ≤ int_field_width * todo :=
      Nat.mul_le_mul_left _ hlt
    omega

/-- The outer loop stays inside a view that holds `todo` blocks, the first one
without its header when it is block 0. -/
theorem block_loop_in_bounds (todo : Nat) :
    ∀ (block : Nat) (s : List Char) (m : Int) (acc : List Int),
      todo * block_width ≤ s.length + (if block = 0 then header_width else 0) →
      block_loop todo block s m acc ≠ .error Fault.out_of_bounds := by
  induction todo with
  | zero => intro block s m acc _ h; rw [block_loop_zero] at h; cases h
  | succ n ih =>
    intro block s m acc hlen h
    rw [block_loop_succ] at h
    have hquota : int_field_width * (if block ≠ 0 then samples_block_n else samples_block_0)
        ≤ s.length := by
      unfold block_width header_width at hlen
      unfold int_field_width samples_block_n samples_block_0
      split_ifs at hlen ⊢ <;> omega
    cases hs : sample_loop (if block ≠ 0 then samples_block_n else samples_block_0) s m acc with
    | error e =>
      rw [hs] at h
      simp only [Except.error.injEq] at h
      subst h
      exact sample_loop_in_bounds _ _ _ _ hquota hs
    | ok r =>
      obtain ⟨s2, m2, acc2⟩ := r
      rw [hs] at h
      simp only at h
      have hview := sample_loop_view_length _ _ _ _ _ _ _ hs
      refine ih _ _ _ _ ?_ h
      rw [List.length_drop, if_neg (Nat.succ_ne_zero block)]
      unfold block_width header_width at hlen
      unfold int_field_width samples_block_n samples_block_0 at hview
      unfold block_width
      split_ifs at hlen hview ⊢ <;> omega

/-! ## Lemmas on the record decoder -/

/-- A read that leaves `failbit` clear was done on a good stream, stored exactly
`n` bytes and moved the get position by `n`. -/
theorem read_of_unfailed (bytes : List Char) (s : IStream) (n : Nat)
    (hok : (s.read bytes n).1.failbit = false) :
    s.good = true ∧ (s.read bytes n).1 = { pos := s.pos + n, failbit := false, eofbit := false } ∧
    (s.read bytes n).2 = (s.rest bytes).take n ∧ ((s.rest bytes).take n).length = n := by
  have hgf : (!s.good) = true ↔ ¬ (s.good = true) := by cases s.good <;> simp
  by_cases hg : s.good = true
  · by_cases hlen : ((s.rest bytes).take n).length = n
    · have hread : s.read bytes n = ({ s with pos := s.pos + n }, (s.rest bytes).take n) := by
        unfold IStream.read
        rw [if_neg (by rw [hgf]; exact fun h => h hg)]
        simp only
        rw [if_pos hlen]
      rw [hread]
      refine ⟨hg, ?_, rfl, hlen⟩
      simp only
      rw [failbit_of_good hg, eofbit_of_good hg]
    · have hread : (s.read bytes n).1.failbit = true := by
        unfold IStream.read
        rw [if_neg (by rw [hgf]; exact fun h => h hg)]
        simp only
        rw [if_neg hlen]
      rw [hread] at hok
      cases hok
  · have hread : (s.read bytes n).1.failbit = true := by
      unfold IStream.read
      rw [if_pos (hgf.mpr hg)]
    rw [hread] at hok
    cases hok

/-- A preamble peek that leaves `failbit` clear started on a good stream and
put the get position back where it was. -/
theorem peek_of_unfailed (bytes : List Char) (stm : IStream) (col : Int)
    (hok : (DEMRecord.peek bytes stm col).1.failbit = false) :
    stm.good = true ∧
    (DEMRecord.peek bytes stm col).1 = { pos := stm.pos, failbit := false, eofbit := false } := by
  unfold DEMRecord.peek at hok ⊢
  by_cases hg : stm.good = true
  · simp only [IStream.tellg, hg, ite_true, IStream.seekg_beg, IStream.seekg] at hok ⊢
    split_ifs at hok ⊢ with hf
    · simp [hf] at hok
    · refine ⟨trivial, ?_⟩
      simp only [Bool.not_eq_true] at hf
      simp [hf]
  · simp [IStream.tellg, hg, IStream.seekg_beg] at hok

/-- What a normal return of the record decoder tells: the peek gave a sample
count `m` that is not negative, the bulk read was for `block_count m * 1024`
bytes, and the samples are those of the block loop when the read succeeded. -/
theorem DEMRecord_read_inv (bytes : List Char) (stm : IStream) (rec : DEMRecord)
    (stm2 : IStream) (r : DEMRecord) (h : DEMRecord.read bytes stm rec = .ok (stm2, r)) :
    ∃ (stm1 : IStream) (m : Int),
      DEMRecord.peek bytes stm rec.col_ = (stm1, r.col_, some m) ∧ 0 ≤ m ∧
      stm2 = (stm1.read bytes (block_count m * 1024).toNat).1 ∧
      (stm2.failbit = true → r.elevations_ = rec.elevations_) ∧
      (stm2.failbit = false → ∃ (s1 : List Char) (m1 : Int),
        block_loop (block_count m).toNat 0
          ((stm1.read bytes (block_count m * 1024).toNat).2.drop header_width) m
          rec.elevations_ = .ok (s1, m1, r.elevations_)) := by
  have hbw : ((block_width : Nat) : Int) = 1024 := rfl
  unfold DEMRecord.read at h
  rw [hbw] at h
  cases hp : DEMRecord.peek bytes stm rec.col_ with
  | mk stm1 rest =>
    obtain ⟨col, mo⟩ := rest
    rw [hp] at h
    cases mo with
    | none => cases h
    | some m =>
      simp only at h
      split_ifs at h with h1 h2 h3 h4
      · simp only [Except.ok.injEq, Prod.mk.injEq] at h
        obtain ⟨rfl, rfl⟩ := h
        refine ⟨stm1, m, rfl, by omega, rfl, fun _ => rfl, fun hf => ?_⟩
        rw [h4] at hf
        cases hf
      · cases hb : block_loop (block_count m).toNat 0
            ((stm1.read bytes (block_count m * 1024).toNat).2.drop header_width) m
            rec.elevations_ with
        | error e => rw [hb] at h; cases h
        | ok res =>
          obtain ⟨s1, m1, elevations⟩ := res
          rw [hb] at h
          simp only [Except.ok.injEq, Prod.mk.injEq] at h
          obtain ⟨rfl, rfl⟩ := h
          exact ⟨stm1, m, rfl, by omega, rfl, fun hf => absurd hf h4, fun _ => ⟨s1, m1, hb⟩⟩

theorem block_count_nonneg (m : Int) (hm : 0 ≤ m) : 0 ≤ block_count m := by
  have hdiv : 0 ≤ Int.tdiv (m * (int_field_width : Int)) (block_width : Int) :=
    Int.tdiv_nonneg (by unfold int_field_width; omega) (by unfold block_width; omega)
  simp only [block_count]
  split <;> omega

theorem toNat_blocks (m : Int) (hm : 0 ≤ m) :
    (block_count m * 1024).toNat = (block_count m).toNat * block_width := by
  have h := block_count_nonneg m hm
  unfold block_width
  omega

/-- A record decode that leaves `failbit` clear: the peek put the get position
back to the start of the record and the bulk read moved it by the whole blocks. -/
theorem DEMRecord_read_of_unfailed (bytes : List Char) (stm stm2 : IStream) (rec r : DEMRecord)
    (hread : DEMRecord.read bytes stm rec = .ok (stm2, r)) (hok : stm2.failbit = false) :
    ∃ m : Int,
      DEMRecord.peek bytes stm rec.col_
        = ({ pos := stm.pos, failbit := false, eofbit := false }, r.col_, some m) ∧ 0 ≤ m ∧
      stm2 = { pos := stm.pos + (block_count m).toNat * block_width, failbit := false,
               eofbit := false } ∧
      ∃ (s1 : List Char) (m1 : Int),
        block_loop (block_count m).toNat 0 ((record_buffer bytes stm.pos m).drop header_width) m
          rec.elevations_ = .ok (s1, m1, r.elevations_) := by
  obtain ⟨stm1, m, hpeek, hm, hstm2, _, hloop⟩ := DEMRecord_read_inv bytes stm rec stm2 r hread
  rw [hstm2] at hok
  obtain ⟨hgood1, hpos, hbuf, _⟩ := read_of_unfailed bytes stm1 _ hok
  have hpk := peek_of_unfailed bytes stm rec.col_ (by rw [hpeek]; exact failbit_of_good hgood1)
  rw [hpeek] at hpk
  simp only at hpk
  obtain ⟨_, hstm1⟩ := hpk
  subst hstm1
  refine ⟨m, hpeek, hm, ?_, ?_⟩
  · rw [hstm2, hpos, toNat_blocks m hm]
  · obtain ⟨s1, m1, hb⟩ := hloop (by rw [hstm2]; exact hok)
    rw [hbuf] at hb
    exact ⟨s1, m1, hb⟩

/-- Successful record decodes keep the get position on a block boundary. -/
theorem decodes_pos_dvd {bytes : List Char} {s t : IStream} {rs : List DEMRecord}
    (hdec : Decodes bytes s rs t) :
    ∀ n : Nat, rs.length ≤ n → reads_succeed bytes n s = true → block_width ∣ s.pos →
      block_width ∣ t.pos := by
  induction hdec with
  | nil s => intro n _ _ h; exact h
  | @cons s s1 t r rs hread _ ih =>
    intro n hlen hsucc hdvd
    cases n with
    | zero => simp at hlen
    | succ n =>
      rw [reads_succeed_succ, hread] at hsucc
      simp only [Bool.and_eq_true, Bool.not_eq_true'] at hsucc
      obtain ⟨m, _, _, hs1, _⟩ := DEMRecord_read_of_unfailed bytes s s1 _ r hread hsucc.1
      refine ih n (by simpa using hlen) hsucc.2 ?_
      rw [hs1]
      exact Nat.dvd_add hdvd (Nat.dvd_mul_left _ _)

/-! ## Lemmas on the field grid of a record -/

theorem lt_length_of_getElem? {l : List Int} {k : Nat} {v : Int} (h : l[k]? = some v) :
    k < l.length := by
  obtain ⟨hlt, _⟩ := List.getElem?_eq_some.mp h
  exact hlt

/-- Slot `n + j` of the grid lies `6 * j` bytes after the first slot of its block, where the
block `b` starts its samples at offset `o` with slot `n`. -/
theorem slot_offset_in_block (b o n j : Nat)
    (hgrid : (b = 0 ∧ o = 146 ∧ n = 0) ∨ (0 < b ∧ o = 1024 * b ∧ n = 146 + 170 * (b - 1)))
    (hj : j < (if b ≠ 0 then samples_block_n else samples_block_0)) :
    slot_offset (n + j) = o + int_field_width * j := by
  unfold slot_offset int_field_width
  unfold samples_block_n samples_block_0 at hj
  rcases hgrid with ⟨hb, ho, hn⟩ | ⟨hb, ho, hn⟩
  · subst hb ho hn
    simp only [ne_eq, not_true_eq_false, if_false] at hj
    rw [if_pos (by omega)]
    omega
  · have hb0 : b ≠ 0 := by omega
    rw [if_pos hb0] at hj
    subst ho hn
    rw [if_neg (by omega)]
    omega

/-- The next slot after the first `j` slots of a block is no slot of an earlier block. -/
theorem slot_offset_strict_mono (i j : Nat) (h : i < j) :
    slot_offset i + int_field_width ≤ slot_offset j := by
  unfold slot_offset int_field_width
  split_ifs <;> omega

/-- While every field of the grid parses, the outer loop stays on the grid: a sample it
appends at index `k` is the value of the field of slot `k`.  Block `b` starts at offset `o`
of the buffer with slot `n`, and `acc` holds the `n` samples of the earlier slots. -/
theorem block_loop_on_grid (buf : List Char) (todo : Nat) :
    ∀ (b o : Nat) (m : Int) (acc : List Int) (s1 : List Char) (m1 : Int) (acc1 : List Int),
      ((b = 0 ∧ o = 146 ∧ acc.length = 0)
        ∨ (0 < b ∧ o = 1024 * b ∧ acc.length = 146 + 170 * (b - 1))) →
      block_loop todo b (buf.drop o) m acc = .ok (s1, m1, acc1) →
      ∀ (k : Nat) (v : Int), acc1[k]? = some v → acc.length ≤ k →
        (∀ i : Nat, acc.length ≤ i → i ≤ k → (sscanf_d (field_at buf (slot_offset i))).1 ≠ 0) →
        sscanf_d (field_at buf (slot_offset k)) = (1, some v) := by
  induction todo with
  | zero =>
    intro b o m acc s1 m1 acc1 _ h k v hk hle _
    rw [block_loop_zero] at h
    simp only [Except.ok.injEq, Prod.mk.injEq] at h
    obtain ⟨_, _, hacc⟩ := h
    subst hacc
    have := lt_length_of_getElem? hk
    omega
  | succ t ih =>
    intro b o m acc s1 m1 acc1 hgrid h k v hk hle hall
    rw [block_loop_succ] at h
    cases hs : sample_loop (if b ≠ 0 then samples_block_n else samples_block_0) (buf.drop o) m acc with
    | error e => rw [hs] at h; cases h
    | ok r =>
      obtain ⟨s', m', acc'⟩ := r
      rw [hs] at h
      simp only at h
      obtain ⟨new, hnew, _, hquota, _, hfields, hend⟩ := sample_loop_spec _ _ _ _ _ _ _ hs
      obtain ⟨more, hmore, _, _⟩ := block_loop_count _ _ _ _ _ _ _ _ h
      have hslot : ∀ j : Nat, j < (if b ≠ 0 then samples_block_n else samples_block_0) →
          field_at buf (slot_offset (acc.length + j))
            = ((buf.drop o).drop (int_field_width * j)).take int_field_width := by
        intro j hj
        rw [slot_offset_in_block b o acc.length j hgrid hj, List.drop_drop]
        rfl
      by_cases hin : k < acc.length + new.length
      · -- the sample was appended in this block
        have hkj : new[k - acc.length]? = some v := by
          rw [hmore, hnew, List.append_assoc, List.getElem?_append_right hle,
            List.getElem?_append_left (by omega)] at hk
          exact hk
        have hfield := hfields _ _ hkj
        rw [← hslot (k - acc.length) (by omega), show acc.length + (k - acc.length) = k by omega]
          at hfield
        exact hfield
      · rcases hend with ⟨hs', hfull | hzero⟩ | ⟨hshort, _, hfail⟩
        · -- the quota of the block was decoded: the next block starts on the grid
          have hacc' : acc'.length = acc.length + new.length := by
            rw [hnew, List.length_append]
          have hgrid' : (b + 1 = 0 ∧ o + (int_field_width * new.length + (if b ≠ 0 then 4 else 2)) = 146
                ∧ acc'.length = 0)
              ∨ (0 < b + 1 ∧ o + (int_field_width * new.length + (if b ≠ 0 then 4 else 2))
                  = 1024 * (b + 1) ∧ acc'.length = 146 + 170 * (b + 1 - 1)) := by
            right
            rw [hacc', hfull]
            unfold int_field_width samples_block_n samples_block_0
            rcases hgrid with ⟨hb, ho, hn⟩ | ⟨hb, ho, hn⟩
            · subst hb
              simp only [ne_eq, not_true_eq_false, if_false]
              omega
            · have hb0 : b ≠ 0 := by omega
              rw [if_pos hb0, if_pos hb0]
              omega
          rw [hs', List.drop_drop, List.drop_drop] at h
          exact ih (b + 1) _ m' acc' s1 m1 acc1 hgrid' h k v hk (by omega)
            (fun i hi hik => hall i (by omega) hik)
        · -- the count ran out: nothing more is appended
          subst hzero
          obtain ⟨s2, hz⟩ := block_loop_of_zero t (b + 1) (s'.drop (if b ≠ 0 then 4 else 2)) acc'
          rw [hz] at h
          simp only [Except.ok.injEq, Prod.mk.injEq] at h
          obtain ⟨_, _, hacc1⟩ := h
          have := lt_length_of_getElem? hk
          rw [← hacc1, hnew, List.length_append] at this
          omega
        · -- a field of the grid did not parse
          exfalso
          rw [← hslot new.length (by omega)] at hfail
          exact hall (acc.length + new.length) (by omega) (by omega) hfail

/-! ## Lemmas on the output and on `main` -/

theorem infix_skip {x t : List Char} (p : List Char) (h : x <:+: t) : x <:+: p ++ t := by
  obtain ⟨a, b, hab⟩ := h
  exact ⟨p ++ a, b, by rw [← hab]; simp only [List.append_assoc]⟩

theorem infix_skip_cons {x t : List Char} (c : Char) (h : x <:+: t) : x <:+: c :: t :=
  infix_skip [c] h

theorem infix_before {x t : List Char} (s : List Char) (h : x <:+: t) : x <:+: t ++ s := by
  obtain ⟨a, b, hab⟩ := h
  exact ⟨a, b ++ s, by rw [← hab]; simp only [List.append_assoc]⟩

theorem infix_here (a b suf : List Char) : a ++ b <:+: a ++ (b ++ suf) :=
  ⟨[], suf, by simp only [List.nil_append, List.append_assoc]⟩

/-- The header formatter writes its four labelled items in order. -/
theorem DEMInfo_print_of_dimensions (inf : DEMInfo) (rows cols : Int)
    (hrows : inf.rows_ = some rows) (hcols : inf.cols_ = some cols) :
    DEMInfo.print inf
      = .ok ("FileName   : ".toList ++ (inf.fname_ ++ (Char.ofNat 10 :: ("Description: ".toList
          ++ ((if inf.description_ = [] then "<none>".toList else inf.description_)
          ++ (Char.ofNat 10 :: ("Rows       : ".toList ++ (dec_int rows
          ++ (Char.ofNat 10 :: ("Columns    : ".toList ++ dec_int cols)))))))))) := by
  have hdesc : (if (!inf.description_.isEmpty) = true then inf.description_ else "<none>".toList)
      = (if inf.description_ = [] then "<none>".toList else inf.description_) := by
    cases inf.description_ <;> simp
  have h1 : "\nDescription: ".toList = Char.ofNat 10 :: "Description: ".toList := by decide
  have h2 : "\nRows       : ".toList = Char.ofNat 10 :: "Rows       : ".toList := by decide
  have h3 : "\nColumns    : ".toList = Char.ofNat 10 :: "Columns    : ".toList := by decide
  unfold DEMInfo.print
  rw [hrows, hcols]
  simp only
  rw [hdesc, h1, h2, h3]
  simp only [List.append_assoc, List.cons_append]

/-- A file the file decoder returned has both dimensions set. -/
theorem dimensions_of_read (bytes : List Char) (stm stm2 : IStream) (f0 f : DEMFile)
    (h : DEMFile.read bytes stm f0 = .ok (stm2, f)) :
    ∃ rows cols : Int, f.info_.rows_ = some rows ∧ f.info_.cols_ = some cols := by
  unfold DEMFile.read at h
  cases hinfo : DEMInfo.read bytes stm f0.info_ with
  | mk stm1 info =>
    rw [hinfo] at h
    simp only at h
    cases hr : info.rows_ with
    | none => simp [hr] at h
    | some rows =>
      cases hc : info.cols_ with
      | none => simp [hr, hc] at h
      | some cols =>
        simp only [hr, hc] at h
        split_ifs at h
        cases hl : record_loop bytes cols.toNat stm1 f0.records_ with
        | error e => rw [hl] at h; cases h
        | ok res =>
          rw [hl] at h
          simp only [Except.ok.injEq, Prod.mk.injEq] at h
          obtain ⟨_, rfl⟩ := h
          exact ⟨rows, cols, hr, hc⟩

/-- The file formatter returns a text for every file with both dimensions set. -/
theorem DEMFile_print_of_dimensions (f : DEMFile) (rows cols : Int)
    (hrows : f.info_.rows_ = some rows) (hcols : f.info_.cols_ = some cols) :
    ∃ text, DEMInfo.print f.info_ = .ok text ∧
      DEMFile.print f = .ok (text ++ "\nRecords    : ".toList ++ dec_nat f.records_.length) := by
  refine ⟨_, DEMInfo_print_of_dimensions f.info_ rows cols hrows hcols, ?_⟩
  unfold DEMFile.print
  rw [DEMInfo_print_of_dimensions f.info_ rows cols hrows hcols]

/-- The run of `main` on an existing file whose decode and report return. -/
theorem main_of_report (fs : List Char → PathEntry) (prog path bytes : List Char)
    (stm : IStream) (f : DEMFile) (report : List Char) (hfile : fs path = PathEntry.file bytes)
    (hread : DEMFile.read bytes IStream.fresh DEMFile.new = .ok (stm, f))
    (hprint : DEMFile.print f = .ok report) :
    main [prog, path] fs
      = .ok { exit_code := 0
              out := "Reading ".toList ++ quoted path ++ "...".toList ++ "Done.\n".toList
                ++ report ++ "\n".toList
              err := [] } := by
  unfold main
  simp only [hfile, hread, hprint]

theorem main_of_bad_argc (argv : List (List Char)) (fs : List Char → PathEntry)
    (h : argv.length ≠ 2) :
    main argv fs
      = .ok { exit_code := -1, out := [], err := "No input file specified.\n".toList } := by
  unfold main
  match argv, h with
  | [], _ => rfl
  | [_], _ => rfl
  | [_, _], h => simp at h
  | _ :: _ :: _ :: _, _ => rfl

theorem main_of_missing (fs : List Char → PathEntry) (prog path : List Char)
    (hfile : fs path = PathEntry.missing) :
    main [prog, path] fs
      = .ok { exit_code := -1, out := []
              err := "No input file named ".toList ++ quoted path ++ "\n".toList } := by
  unfold main
  simp only [hfile]

theorem fs_single_dem (bytes : List Char) :
    fs_single bytes "dem".toList = PathEntry.file bytes := by
  unfold fs_single
  exact if_pos rfl

theorem fs_single_other (bytes : List Char) :
    fs_single bytes "other".toList = PathEntry.missing := by
  unfold fs_single
  exact if_neg (by decide)

theorem read_file_truncated :
    DEMFile.read file_truncated IStream.fresh DEMFile.new
      = .ok ({ pos := 3572, failbit := true, eofbit := true },
             { info_ := info_elev1 5 2
               records_ := [{ col_ := 1, elevations_ := samples_171 },
                            { col_ := 2, elevations_ := [] }] }) :=
  DEMFile_read_of_decodes file_truncated IStream.fresh _ _ (info_elev1 5 2) 5 2 _
    header_truncated rfl rfl
    (Decodes.cons first_of_truncated (Decodes.cons second_of_truncated (Decodes.nil _))) rfl

/-! ## Lemmas on the record formatter -/

theorem intercalate_cons (sep x : List Char) (xs : List (List Char)) :
    sep.intercalate (x :: xs) = x ++ (xs.map (fun y => sep ++ y)).flatten := by
  induction xs generalizing x with
  | nil => simp [List.intercalate, List.intersperse]
  | cons y ys ih =>
    have h := ih y
    simp only [List.intercalate, List.intersperse, List.flatten_cons, List.map_cons,
      List.append_assoc] at h ⊢
    rw [h]

theorem format_line_cons (z : Int) (c : List Int) :
    format_line (z :: c)
      = Char.ofNat 10 :: dec_int z ++ (c.map (fun y => ", ".toList ++ dec_int y)).flatten := by
  unfold format_line
  rw [List.map_cons, intercalate_cons, List.map_map]
  rfl

theorem print_loop_nil (i : Int) (sep out : List Char) :
    DEMRecord.print_loop [] i sep out = .ok out := rfl

theorem print_loop_cons (z : Int) (zs : List Int) (i : Int) (sep out : List Char) :
    DEMRecord.print_loop (z :: zs) i sep out
      = if INT_MAX < i + 1 then .error Fault.overflow
        else if Int.tmod i 10 = 0 then
          DEMRecord.print_loop zs (i + 1) ", ".toList (out ++ Char.ofNat 10 :: dec_int z)
        else DEMRecord.print_loop zs (i + 1) ", ".toList (out ++ sep ++ dec_int z) := by
  rw [DEMRecord.print_loop]

/-- Inside a line: each sample is written after a separator. -/
theorem print_loop_inside_line (c : List Int) :
    ∀ (rest : List Int) (k : Nat) (out : List Char), (c ≠ [] → 1 ≤ k % 10) →
      k % 10 + c.length ≤ 10 →
      ((k + c.length : Nat) : Int) ≤ INT_MAX →
      DEMRecord.print_loop (c ++ rest) k ", ".toList out
        = DEMRecord.print_loop rest ((k + c.length : Nat) : Int) ", ".toList
            (out ++ (c.map (fun y => ", ".toList ++ dec_int y)).flatten) := by
  induction c with
  | nil => intro rest k out _ _ _; simp
  | cons z c ih =>
    intro rest k out h1 h2 h3
    have h1 := h1 (by simp)
    simp only [List.length_cons] at h2 h3
    have hmod : Int.tmod (k : Int) 10 ≠ 0 := by
      rw [show (10 : Int) = ((10 : Nat) : Int) from rfl, ← Int.ofNat_tmod]
      intro h
      have : k % 10 = 0 := by exact_mod_cast h
      omega
    have hmax : ¬ (INT_MAX < (k : Int) + 1) := by
      unfold INT_MAX at h3 ⊢
      push_cast at h3
      omega
    rw [List.cons_append, print_loop_cons, if_neg hmax, if_neg hmod]
    have hk : ((k : Int) + 1) = ((k + 1 : Nat) : Int) := by push_cast; rfl
    have hnext : c ≠ [] → 1 ≤ (k + 1) % 10 := by
      intro hne
      have hpos : 0 < c.length := List.length_pos.mpr hne
      omega
    rw [hk, ih rest (k + 1) _ hnext (by omega)
      (by rw [show k + 1 + c.length = k + (c.length + 1) by omega]; exact h3)]
    rw [show k + 1 + c.length = k + (c.length + 1) by omega]
    simp only [List.length_cons, List.map_cons, List.flatten_cons, List.append_assoc]

/-- A whole line from its start: a newline, the first sample, then the others. -/
theorem print_loop_line (z : Int) (c rest : List Int) (k : Nat) (sep out : List Char)
    (hk : k % 10 = 0) (hc : c.length ≤ 9) (hmax : ((k + (c.length + 1) : Nat) : Int) ≤ INT_MAX) :
    DEMRecord.print_loop (z :: c ++ rest) k sep out
      = DEMRecord.print_loop rest ((k + (c.length + 1) : Nat) : Int) ", ".toList
          (out ++ format_line (z :: c)) := by
  have hmod : Int.tmod (k : Int) 10 = 0 := by
    rw [show (10 : Int) = ((10 : Nat) : Int) from rfl, ← Int.ofNat_tmod, hk]
    rfl
  have hlt : ¬ (INT_MAX < (k : Int) + 1) := by
    unfold INT_MAX at hmax ⊢
    push_cast at hmax
    omega
  rw [List.cons_append, print_loop_cons, if_neg hlt, if_pos hmod]
  have hk1 : ((k : Int) + 1) = ((k + 1 : Nat) : Int) := by push_cast; rfl
  rw [hk1, print_loop_inside_line c rest (k + 1) _ (fun _ => by omega) (by omega)
    (by rw [show k + 1 + c.length = k + (c.length + 1) by omega]; exact hmax)]
  rw [show k + 1 + c.length = k + (c.length + 1) by omega, format_line_cons]
  simp only [List.append_assoc, List.cons_append]

theorem sample_lines_nil : sample_lines [] = [] := rfl

theorem sample_lines_of_ne_nil (zs : List Int) (hne : zs ≠ []) :
    sample_lines zs = zs.take 10 :: sample_lines (zs.drop 10) := by
  have hpos : 0 < zs.length := List.length_pos.mpr hne
  have hcount : (zs.length + 9) / 10 = ((zs.drop 10).length + 9) / 10 + 1 := by
    rw [List.length_drop]
    omega
  unfold sample_lines
  rw [hcount, List.range_succ_eq_map, List.map_cons, List.map_map]
  congr 1
  apply List.map_congr_left
  intro j _
  simp only [Function.comp, List.drop_drop]
  rw [show 10 + 10 * j = 10 * j.succ by omega]

/-- The record formatter's loop writes the samples ten to a line. -/
theorem print_loop_lines (n : Nat) :
    ∀ (zs : List Int) (k : Nat) (sep out : List Char), zs.length ≤ n → k % 10 = 0 →
      ((k + zs.length : Nat) : Int) ≤ INT_MAX →
      DEMRecord.print_loop zs k sep out
        = .ok (out ++ ((sample_lines zs).map format_line).flatten) := by
  induction n with
  | zero =>
    intro zs k sep out hlen _ _
    have hnil : zs = [] := List.length_eq_zero.mp (Nat.le_zero.mp hlen)
    subst hnil
    simp [print_loop_nil, sample_lines_nil]
  | succ n ih =>
    intro zs k sep out hlen hk hmax
    cases zs with
    | nil => simp [print_loop_nil, sample_lines_nil]
    | cons z t =>
      have hsplit : z :: t = z :: t.take 9 ++ t.drop 9 := by
        rw [List.cons_append, List.take_append_drop]
      have htake : (z :: t).take 10 = z :: t.take 9 := rfl
      have hdrop : (z :: t).drop 10 = t.drop 9 := rfl
      have hc : (t.take 9).length ≤ 9 := by rw [List.length_take]; omega
      simp only [List.length_cons] at hlen hmax
      have hmax1 : ((k + ((t.take 9).length + 1) : Nat) : Int) ≤ INT_MAX := by
        have : (t.take 9).length ≤ t.length := by rw [List.length_take]; omega
        unfold INT_MAX at hmax ⊢
        push_cast at hmax ⊢
        omega
      rw [sample_lines_of_ne_nil (z :: t) (by simp), htake, hdrop, List.map_cons,
        List.flatten_cons]
      conv_lhs => rw [hsplit]
      rw [print_loop_line z (t.take 9) (t.drop 9) k sep out hk hc hmax1]
      by_cases hrest : t.drop 9 = []
      · rw [hrest, print_loop_nil, sample_lines_nil]
        simp
      · have hlen9 : 9 < t.length := by
          by_contra hle
          exact hrest (List.drop_eq_nil_of_le (by omega))
        have htl : (t.take 9).length = 9 := by rw [List.length_take]; omega
        rw [htl, ih (t.drop 9) (k + (9 + 1)) _ _ (by rw [List.length_drop]; omega) (by omega)
          (by
            rw [List.length_drop]
            unfold INT_MAX at hmax ⊢
            push_cast at hmax ⊢
            omega)]
        simp only [List.append_assoc]

theorem sample_lines_flatten (n : Nat) :
    ∀ zs : List Int, zs.length ≤ n → (sample_lines zs).flatten = zs := by
  induction n with
  | zero =>
    intro zs hlen
    have hnil : zs = [] := List.length_eq_zero.mp (Nat.le_zero.mp hlen)
    subst hnil
    rfl
  | succ n ih =>
    intro zs hlen
    by_cases hne : zs = []
    · subst hne; rfl
    · have hpos : 0 < zs.length := List.length_pos.mpr hne
      rw [sample_lines_of_ne_nil zs hne, List.flatten_cons,
        ih (zs.drop 10) (by rw [List.length_drop]; omega), List.take_append_drop]

theorem sample_lines_getElem? (zs : List Int) (j : Nat) (line : List Int)
    (h : (sample_lines zs)[j]? = some line) :
    j < (zs.length + 9) / 10 ∧ line = (zs.drop (10 * j)).take 10 := by
  unfold sample_lines at h
  rw [List.getElem?_map] at h
  cases hr : (List.range ((zs.length + 9) / 10))[j]? with
  | none => rw [hr] at h; cases h
  | some i =>
    rw [hr] at h
    simp only [Option.map_some', Option.some.injEq] at h
    have hlt : j < (List.range ((zs.length + 9) / 10)).length := by
      by_contra hge
      rw [List.getElem?_eq_none (by omega)] at hr
      cases hr
    rw [List.length_range] at hlt
    rw [List.getElem?_range hlt] at hr
    simp only [Option.some.injEq] at hr
    subst hr
    exact ⟨hlt, h.symm⟩

/-! ## The record decoder: counts, cursor and bounds -/

/-- Claim C11: a decoded record never holds more samples than its preamble
declares.  In the loops the remaining count goes down by one for each sample
appended and never below zero, and once it is zero no block appends anything. -/
theorem C11_samples_at_most_declared (bytes : List Char) (stm stm2 : IStream) (rec : DEMRecord)
    (hread : DEMRecord.read bytes stm DEMRecord.new = .ok (stm2, rec)) :
    (∃ m : Int, (DEMRecord.peek bytes stm DEMRecord.new.col_).2.2 = some m ∧ 0 ≤ m ∧
      (rec.elevations_.length : Int) ≤ m) ∧
    (∀ (todo block : Nat) (s : List Char) (m : Int) (acc : List Int) (s1 : List Char) (m1 : Int)
      (acc1 : List Int), 0 ≤ m → block_loop todo block s m acc = .ok (s1, m1, acc1) →
      0 ≤ m1 ∧ (acc1.length : Int) + m1 = acc.length + m ∧ ∃ more, acc1 = acc ++ more) ∧
    (∀ (todo block : Nat) (s : List Char) (acc : List Int),
      ∃ s1, block_loop todo block s 0 acc = .ok (s1, 0, acc)) := by
  have hcount : ∀ (todo block : Nat) (s : List Char) (m : Int) (acc : List Int) (s1 : List Char)
      (m1 : Int) (acc1 : List Int), 0 ≤ m → block_loop todo block s m acc = .ok (s1, m1, acc1) →
      0 ≤ m1 ∧ (acc1.length : Int) + m1 = acc.length + m ∧ ∃ more, acc1 = acc ++ more := by
    intro todo block s m acc s1 m1 acc1 hm h
    obtain ⟨more, hacc, hm1, hnn⟩ := block_loop_count todo block s m acc s1 m1 acc1 h
    refine ⟨hnn hm, ?_, more, hacc⟩
    rw [hacc, hm1, List.length_append]
    push_cast
    ring
  refine ⟨?_, hcount, fun todo block s acc => block_loop_of_zero todo block s acc⟩
  obtain ⟨stm1, m, hpeek, hm, _, hfail, hloop⟩ :=
    DEMRecord_read_inv bytes stm DEMRecord.new stm2 rec hread
  refine ⟨m, by rw [hpeek], hm, ?_⟩
  cases hf : stm2.failbit with
  | true =>
    rw [hfail hf]
    simpa [DEMRecord.new] using hm
  | false =>
    obtain ⟨s1, m1, hb⟩ := hloop hf
    obtain ⟨hm1, hsum, _⟩ := hcount _ _ _ _ _ _ _ _ hm hb
    simp only [DEMRecord.new, List.length_nil] at hsum
    omega

/-- The first record of `file_three_columns` declares 171 samples and decodes to 171. -/
theorem C11_three_column_file_example :
    ∃ m : Int, (DEMRecord.peek file_three_columns
        { pos := 1024, failbit := false, eofbit := false } DEMRecord.new.col_).2.2 = some m ∧
      0 ≤ m ∧ ((samples_171.length : Nat) : Int) ≤ m :=
  (C11_samples_at_most_declared file_three_columns
    { pos := 1024, failbit := false, eofbit := false }
    { pos := 3072, failbit := false, eofbit := false }
    { col_ := 1, elevations_ := samples_171 } first_of_three_columns).1

/-- Claim C12 (code defect): a record declaring no samples should still consume
a block.  The decoder computes a block count of 0 for it and reads nothing:
the cursor stays at the start of the record, and the file decoder decodes
this same record again for the next column. -/
theorem C12_record_of_zero_samples_consumes_nothing :
    record_zero.length = 1024 ∧ block_count 0 = 0 ∧
    DEMRecord.read record_zero IStream.fresh DEMRecord.new
      = .ok (IStream.fresh, { col_ := 1, elevations_ := [] }) ∧
    DEMFile.read file_zero_first IStream.fresh DEMFile.new
      = .ok ({ pos := 1024, failbit := false, eofbit := false },
             { info_ := info_elev1 5 2
               records_ := [{ col_ := 1, elevations_ := [] },
                            { col_ := 1, elevations_ := [] }] }) := by
  refine ⟨by decide!, by decide, by decide!, by decide!⟩

/-- Claim C13: a record decode that succeeds in its bulk read starts with a peek
that puts the cursor back to `start` and ends with the cursor at
`start + block_count * 1024`; so successful record decodes that start on a
multiple of 1024 (the header decoder ends at 1024) end on a multiple of 1024. -/
theorem C13_cursor_after_record (bytes : List Char) (stm stm2 : IStream) (rec r : DEMRecord)
    (hread : DEMRecord.read bytes stm rec = .ok (stm2, r)) (hok : stm2.failbit = false) :
    (∃ m : Int,
      DEMRecord.peek bytes stm rec.col_
        = ({ pos := stm.pos, failbit := false, eofbit := false }, r.col_, some m) ∧
      0 ≤ block_count m ∧
      stm2 = { pos := stm.pos + (block_count m).toNat * 1024, failbit := false,
               eofbit := false }) ∧
    (∀ (n : Nat) (s t : IStream) (rs : List DEMRecord), 1024 ∣ s.pos →
      reads_succeed bytes n s = true → Decodes bytes s rs t → rs.length ≤ n → 1024 ∣ t.pos) := by
  refine ⟨?_, fun n s t rs hdvd hsucc hdec hlen => decodes_pos_dvd hdec n hlen hsucc hdvd⟩
  obtain ⟨m, hpeek, hm, hstm2, _⟩ := DEMRecord_read_of_unfailed bytes stm stm2 rec r hread hok
  exact ⟨m, hpeek, block_count_nonneg m hm, hstm2⟩

/-- The first record of `file_three_columns` starts at 1024 and ends at 3072. -/
theorem C13_three_column_file_example :
    ∃ m : Int,
      DEMRecord.peek file_three_columns { pos := 1024, failbit := false, eofbit := false }
          DEMRecord.new.col_
        = ({ pos := 1024, failbit := false, eofbit := false }, 1, some m) ∧
      0 ≤ block_count m ∧
      ({ pos := 3072, failbit := false, eofbit := false } : IStream)
        = { pos := 1024 + (block_count m).toNat * 1024, failbit := false, eofbit := false } :=
  (C13_cursor_after_record file_three_columns
    { pos := 1024, failbit := false, eofbit := false }
    { pos := 3072, failbit := false, eofbit := false } DEMRecord.new
    { col_ := 1, elevations_ := samples_171 } first_of_three_columns rfl).1

/-! ## The cursor after the header -/

/-- Claim C14, as stated, fails: the header block with `5 x` at offset 853 has
1024 bytes, and after the header decoder the cursor is at 855, where the
second extraction failed, with `failbit` set. -/
theorem C14_failed_dimensions_leave_the_cursor :
    (header_block "ELEV1".toList [] "5 x".toList).length = 1024 ∧
    (DEMInfo.read (header_block "ELEV1".toList [] "5 x".toList) IStream.fresh DEMInfo.new).1
      = { pos := 855, failbit := true, eofbit := false } := by
  refine ⟨by decide!, by decide!⟩

/-- Claim C14, amended: on a source of at least 80 bytes the header decoder
leaves the cursor at offset 1024, with the stream good, whenever the two
extractions at offset 853 leave `failbit` clear; when they set `failbit`,
`seekg(1024)` does nothing and the cursor stays where the extractions left it. -/
theorem C14_cursor_after_header (bytes : List Char) (inf : DEMInfo) (h80 : 80 ≤ bytes.length) :
    (DEMInfo.read bytes IStream.fresh inf).1
      = if ((IStream.extract_int bytes ⟨853, false, false⟩ inf.rows_).1.extract_int bytes
            inf.cols_).1.failbit = true
        then { ((IStream.extract_int bytes ⟨853, false, false⟩ inf.rows_).1.extract_int bytes
                inf.cols_).1 with eofbit := false }
        else { pos := 1024, failbit := false, eofbit := false } := by
  rw [DEMInfo_read_of_fresh bytes inf h80]
  simp only [IStream.seekg]
  split_ifs with hf
  · rfl
  · simp only [Bool.not_eq_true] at hf
    simp [hf]

/-- The header `5 3` parses: the cursor ends at 1024. -/
theorem C14_cursor_after_header_example :
    (DEMInfo.read (header_block "ELEV1".toList [] "5 3".toList) IStream.fresh DEMInfo.new).1
      = { pos := 1024, failbit := false, eofbit := false } :=
  (C14_cursor_after_header (header_block "ELEV1".toList [] "5 3".toList) DEMInfo.new
    (by decide!)).trans (by decide!)

/-! ## The report and the exit code -/

/-- Claim C15, as stated, fails: the report holds the header and the number of
records, nothing of the records themselves.  Two files with the same header
and one record each, of different column and samples, give the same report,
and the words of the record formatter do not occur in it. -/
theorem C15_report_leaves_the_records_out :
    DEMFile.print { info_ := info_elev1 5 1, records_ := [{ col_ := 1, elevations_ := [7] }] }
      = .ok ("FileName   : ELEV1                                   ".toList
          ++ "\nDescription: <none>\nRows       : 5\nColumns    : 1\nRecords    : 1".toList) ∧
    DEMFile.print { info_ := info_elev1 5 1, records_ := [{ col_ := 1, elevations_ := [7] }] }
      = DEMFile.print
          { info_ := info_elev1 5 1, records_ := [{ col_ := 2, elevations_ := [8, 9] }] } ∧
    DEMRecord.print { col_ := 1, elevations_ := [7] } = .ok "\nColumn: 1\nPoints: 1\n7".toList ∧
    ¬ ("Column: ".toList <:+: ("FileName   : ELEV1                                   ".toList
          ++ "\nDescription: <none>\nRows       : 5\nColumns    : 1\nRecords    : 1".toList)) ∧
    ¬ ("Points: ".toList <:+: ("FileName   : ELEV1                                   ".toList
          ++ "\nDescription: <none>\nRows       : 5\nColumns    : 1\nRecords    : 1".toList)) := by
  refine ⟨by decide, by decide, by decide, by decide!, by decide!⟩

/-- Claim C15, amended: for every decoded file (both dimensions set) the report
holds the file name, the description or `<none>` when it is empty, the rows,
the columns, and the number of decoded records; it depends on the records
through their number only; and `main` writes it to the standard output
between `Done.` and a final newline. -/
theorem C15_report_has_header_and_record_count (f : DEMFile) (rows cols : Int)
    (hrows : f.info_.rows_ = some rows) (hcols : f.info_.cols_ = some cols) :
    ∃ report : List Char, DEMFile.print f = .ok report ∧
      ("FileName   : ".toList ++ f.info_.fname_) <:+: report ∧
      ("Description: ".toList
        ++ (if f.info_.description_ = [] then "<none>".toList else f.info_.description_))
        <:+: report ∧
      ("Rows       : ".toList ++ dec_int rows) <:+: report ∧
      ("Columns    : ".toList ++ dec_int cols) <:+: report ∧
      ("Records    : ".toList ++ dec_nat f.records_.length) <:+: report ∧
      (∀ g : DEMFile, g.info_ = f.info_ → g.records_.length = f.records_.length →
        DEMFile.print g = .ok report) ∧
      (∀ (fs : List Char → PathEntry) (prog path bytes : List Char) (stm : IStream),
        fs path = PathEntry.file bytes →
        DEMFile.read bytes IStream.fresh DEMFile.new = .ok (stm, f) →
        main [prog, path] fs
          = .ok { exit_code := 0
                  out := "Reading ".toList ++ quoted path ++ "...".toList ++ "Done.\n".toList
                    ++ report ++ "\n".toList
                  err := [] }) := by
  obtain ⟨text, htext, hprint⟩ := DEMFile_print_of_dimensions f rows cols hrows hcols
  have hinfo := DEMInfo_print_of_dimensions f.info_ rows cols hrows hcols
  rw [hinfo] at htext
  simp only [Except.ok.injEq] at htext
  have hrec : "\nRecords    : ".toList = Char.ofNat 10 :: "Records    : ".toList := by decide
  refine ⟨_, hprint, ?_, ?_, ?_, ?_, ?_, ?_, ?_⟩
  · rw [← htext]
    exact infix_before _ (infix_before _ (infix_here _ _ _))
  · rw [← htext]
    exact infix_before _ (infix_before _
      (infix_skip _ (infix_skip _ (infix_skip_cons _ (infix_here _ _ _)))))
  · rw [← htext]
    exact infix_before _ (infix_before _
      (infix_skip _ (infix_skip _ (infix_skip_cons _ (infix_skip _ (infix_skip _
        (infix_skip_cons _ (infix_here _ _ _))))))))
  · rw [← htext]
    exact infix_before _ (infix_before _
      (infix_skip _ (infix_skip _ (infix_skip_cons _ (infix_skip _ (infix_skip _
        (infix_skip_cons _ (infix_skip _ (infix_skip _
          (infix_skip_cons _ List.infix_rfl))))))))))
  · rw [hrec]
    exact ⟨text ++ [Char.ofNat 10], [], by
      simp only [List.append_assoc, List.cons_append, List.nil_append, List.append_nil]⟩
  · intro g hg hlen
    obtain ⟨text2, htext2, hprint2⟩ := DEMFile_print_of_dimensions g rows cols
      (by rw [hg]; exact hrows) (by rw [hg]; exact hcols)
    rw [hg, hinfo] at htext2
    simp only [Except.ok.injEq] at htext2
    rw [hprint2, hlen, ← htext2, ← htext]
  · intro fs prog path bytes stm hfile hread
    exact main_of_report fs prog path bytes stm f _ hfile hread hprint

/-- The report of a file with the header of `info_elev1 5 1` and one record. -/
theorem C15_report_example :
    ∃ report : List Char,
      DEMFile.print { info_ := info_elev1 5 1, records_ := [{ col_ := 1, elevations_ := [7] }] }
        = .ok report ∧
      ("Rows       : ".toList ++ dec_int 5) <:+: report ∧
      ("Records    : ".toList ++ dec_nat 1) <:+: report :=
  have h := C15_report_has_header_and_record_count
    { info_ := info_elev1 5 1, records_ := [{ col_ := 1, elevations_ := [7] }] } 5 1 rfl rfl
  h.elim fun report hr => ⟨report, hr.1, hr.2.2.2.1, hr.2.2.2.2.2.1⟩

/-- Claim C16, as stated, fails: decoding `file_truncated` hits a truncated bulk
read, and decoding a header with `5 x` at offset 853 a failed dimension
parse, both leaving `failbit` set; `main` returns 0 on both. -/
theorem C16_failed_decodes_exit_with_zero :
    (∃ (stm : IStream) (f : DEMFile),
      DEMFile.read file_truncated IStream.fresh DEMFile.new = .ok (stm, f) ∧
      stm.failbit = true) ∧
    (∃ out : List Char,
      main ["demrender".toList, "dem".toList] (fs_single file_truncated)
        = .ok { exit_code := 0, out := out, err := [] }) ∧
    (DEMInfo.read (header_block "ELEV1".toList [] "5 x".toList) IStream.fresh
      DEMInfo.new).1.failbit = true ∧
    main ["demrender".toList, "dem".toList]
        (fs_single (header_block "ELEV1".toList [] "5 x".toList))
      = .ok { exit_code := 0
              out := "Reading \"dem\"...Done.\n".toList
                ++ "FileName   : ELEV1                                   ".toList
                ++ "\nDescription: <none>\nRows       : 5\nColumns    : 0".toList
                ++ "\nRecords    : 0\n".toList
              err := [] } := by
  exact ⟨⟨{ pos := 3572, failbit := true, eofbit := true }, _, read_file_truncated, rfl⟩,
    ⟨_, main_of_report (fs_single file_truncated) _ "dem".toList file_truncated _ _
      ("FileName   : ELEV1                                   ".toList
        ++ "\nDescription: <none>\nRows       : 5\nColumns    : 2\nRecords    : 2".toList)
      (fs_single_dem file_truncated) read_file_truncated (by decide)⟩,
    by decide!, by decide!⟩

/-- Claim C16, amended: `main` returns -1 when the argument count is not 2 or
the path does not exist; whenever the file exists and the file decoder
returns, whatever the state it leaves the stream in (also with `failbit` set
by a truncated read or a failed dimension parse), `main` prints the report
and returns 0. -/
theorem C16_exit_code (argv : List (List Char)) (fs : List Char → PathEntry) :
    (argv.length ≠ 2 →
      main argv fs
        = .ok { exit_code := -1, out := [], err := "No input file specified.\n".toList }) ∧
    (∀ prog path : List Char, argv = [prog, path] → fs path = PathEntry.missing →
      main argv fs
        = .ok { exit_code := -1, out := []
                err := "No input file named ".toList ++ quoted path ++ "\n".toList }) ∧
    (∀ (prog path bytes : List Char) (stm : IStream) (f : DEMFile), argv = [prog, path] →
      fs path = PathEntry.file bytes →
      DEMFile.read bytes IStream.fresh DEMFile.new = .ok (stm, f) →
      ∃ out : List Char, main argv fs = .ok { exit_code := 0, out := out, err := [] }) := by
  refine ⟨main_of_bad_argc argv fs, ?_, ?_⟩
  · intro prog path hargv hfile
    rw [hargv]
    exact main_of_missing fs prog path hfile
  · intro prog path bytes stm f hargv hfile hread
    obtain ⟨rows, cols, hrows, hcols⟩ := dimensions_of_read bytes _ stm _ f hread
    obtain ⟨text, _, hprint⟩ := DEMFile_print_of_dimensions f rows cols hrows hcols
    rw [hargv]
    exact ⟨_, main_of_report fs prog path bytes stm f _ hfile hread hprint⟩

/-- No argument, a missing path, and the truncated file. -/
theorem C16_exit_code_examples :
    main ["demrender".toList] (fs_single file_truncated)
      = .ok { exit_code := -1, out := [], err := "No input file specified.\n".toList } ∧
    main ["demrender".toList, "other".toList] (fs_single file_truncated)
      = .ok { exit_code := -1, out := []
              err := "No input file named ".toList ++ quoted "other".toList ++ "\n".toList } ∧
    (∃ out : List Char,
      main ["demrender".toList, "dem".toList] (fs_single file_truncated)
        = .ok { exit_code := 0, out := out, err := [] }) :=
  ⟨(C16_exit_code ["demrender".toList] (fs_single file_truncated)).1 (by decide),
   (C16_exit_code ["demrender".toList, "other".toList] (fs_single file_truncated)).2.1
     _ _ rfl (fs_single_other file_truncated),
   (C16_exit_code ["demrender".toList, "dem".toList] (fs_single file_truncated)).2.2
     _ _ _ _ _ rfl (fs_single_dem file_truncated) read_file_truncated⟩

/-! ## The samples on the field grid -/

/-- The samples on the field grid: for a record decode whose bulk read succeeded, with
declared count m, and an index k below the number of decoded samples, provided no field of
the slots 0 to k (slot k included) makes `sscanf` return 0, sample k is the integer parsed
from the 6-byte field at the offset of slot k in the record buffer: 146 + 6*k when k < 146, and 1024*b + 6*j with
b = 1 + (k-146)/170 and j = (k-146) mod 170 otherwise.  The record then has at least one
block; the header, 146 fields and 2 padding bytes fill one block, as do 170 fields and 4
padding bytes; and the slots follow each other in the buffer without overlap. -/
theorem sample_is_parsed_from_its_slot (bytes : List Char) (stm stm2 : IStream)
    (rec : DEMRecord) (m : Int) (k : Nat) (v : Int)
    (hread : DEMRecord.read bytes stm DEMRecord.new = .ok (stm2, rec))
    (hok : stm2.failbit = false)
    (hm : (DEMRecord.peek bytes stm DEMRecord.new.col_).2.2 = some m)
    (hk : rec.elevations_[k]? = some v)
    (hparse : ∀ i : Nat, i ≤ k →
      (sscanf_d (field_at (record_buffer bytes stm.pos m) (slot_offset i))).1 ≠ 0) :
    sscanf_d (field_at (record_buffer bytes stm.pos m) (slot_offset k)) = (1, some v)
      ∧ 1 ≤ block_count m
      ∧ header_width + samples_block_0 * int_field_width + 2 = block_width
      ∧ samples_block_n * int_field_width + 4 = block_width
      ∧ ∀ i j : Nat, i < j → slot_offset i + int_field_width ≤ slot_offset j := by
  obtain ⟨m', hpeek, hm', _, s1, m1, hloop⟩ :=
    DEMRecord_read_of_unfailed bytes stm stm2 DEMRecord.new rec hread hok
  rw [hpeek] at hm
  simp only [Option.some.injEq] at hm
  subst hm
  have hnew : DEMRecord.new.elevations_ = [] := rfl
  rw [hnew] at hloop
  refine ⟨?_, ?_, rfl, rfl, slot_offset_strict_mono⟩
  · exact block_loop_on_grid (record_buffer bytes stm.pos m') _ 0 146 m' [] s1 m1 rec.elevations_
      (Or.inl ⟨rfl, rfl, rfl⟩) hloop k v hk (Nat.zero_le _) (fun i _ hik => hparse i hik)
  · by_contra hlt
    have hzero : (block_count m').toNat = 0 := by
      have := block_count_nonneg m' hm'
      omega
    rw [hzero, block_loop_zero] at hloop
    simp only [Except.ok.injEq, Prod.mk.injEq] at hloop
    obtain ⟨_, _, hnil⟩ := hloop
    rw [← hnil] at hk
    simp at hk

/-- On a record of 171 samples whose fields all parse, sample 146, the first of block 1,
is parsed from the field at offset 1024. -/
theorem first_sample_of_block_one_example :
    slot_offset 146 = 1024
      ∧ sscanf_d (field_at (record_buffer (record_171 ['1']) 0 171) (slot_offset 146))
          = (1, some 8) :=
  ⟨by decide,
   (sample_is_parsed_from_its_slot (record_171 ['1']) IStream.fresh
      { pos := 2048, failbit := false, eofbit := false }
      { col_ := 1, elevations_ := samples_171 } 171 146 8
      (by decide!) rfl (by decide!) (by decide!) (by decide!)).1⟩

/-! ## C17: the offsets of the sample fields -/

/-- Claim C17 (code defect): sample k should be the integer parsed from the field of slot
k whenever no field before slot k failed to parse.  Take a record declaring 171 samples (two
blocks) with letters in the field of slot 0.  No field comes before slot 0, and the field of
slot 0, at offset 146, does not parse: decoding should stop there with no sample.  The
`break` of line 166 leaves the inner loop only, so the decoder goes on in block 1 two bytes
off the grid and returns 170 samples, of which sample 0 is parsed from offset 154. -/
theorem C17_first_sample_is_read_off_the_grid :
    block_count 171 = 2
      ∧ DEMRecord.read record_171_bad_first IStream.fresh DEMRecord.new
          = .ok ({ pos := 2048, failbit := false, eofbit := false },
                 { col_ := 1, elevations_ := List.replicate 145 7 ++ List.replicate 25 8 })
      ∧ (List.replicate 145 7 ++ List.replicate 25 8 : List Int)[0]? = some 7
      ∧ slot_offset 0 = 146
      ∧ sscanf_d (field_at (record_buffer record_171_bad_first 0 171) (slot_offset 0)) = (0, none)
      ∧ sscanf_d (field_at (record_buffer record_171_bad_first 0 171) (slot_offset 0))
          ≠ (1, some 7)
      ∧ sscanf_d (field_at (record_buffer record_171_bad_first 0 171) 154) = (1, some 7) := by
  refine ⟨by decide, by decide!, by decide!, by decide, by decide!, by decide!, by decide!⟩

/-! ## C18: the sample reads and the buffer -/

/-- Claim C18: the sample loops never read outside the buffer of the bulk read:
on a buffer of `l` blocks the block loop never ends in `out_of_bounds`, and
neither does the record decoder. -/
theorem C18_sample_reads_stay_in_the_buffer (bytes : List Char) (stm : IStream)
    (rec : DEMRecord) :
    DEMRecord.read bytes stm rec ≠ .error Fault.out_of_bounds ∧
    (∀ (l : Nat) (buf : List Char) (m : Int) (acc : List Int), buf.length = l * block_width →
      block_loop l 0 (buf.drop header_width) m acc ≠ .error Fault.out_of_bounds) := by
  have hloop : ∀ (l : Nat) (buf : List Char) (m : Int) (acc : List Int),
      buf.length = l * block_width →
      block_loop l 0 (buf.drop header_width) m acc ≠ .error Fault.out_of_bounds := by
    intro l buf m acc hlen
    refine block_loop_in_bounds l 0 _ m acc ?_
    rw [List.length_drop, if_pos rfl]
    omega
  refine ⟨?_, hloop⟩
  have hbw : ((block_width : Nat) : Int) = 1024 := rfl
  intro h
  unfold DEMRecord.read at h
  rw [hbw] at h
  cases hp : DEMRecord.peek bytes stm rec.col_ with
  | mk stm1 rest =>
    obtain ⟨col, mo⟩ := rest
    rw [hp] at h
    cases mo with
    | none => cases h
    | some m =>
      simp only at h
      split_ifs at h with h1 h2 h3 h4
      · simp at h
      · simp at h
      · simp at h
      · cases hb : block_loop (block_count m).toNat 0
            ((stm1.read bytes (block_count m * 1024).toNat).2.drop header_width) m
            rec.elevations_ with
        | ok res => rw [hb] at h; cases h
        | error e =>
          rw [hb] at h
          simp only [Except.error.injEq] at h
          subst h
          have hf : (stm1.read bytes (block_count m * 1024).toNat).1.failbit = false := by
            simpa using h4
          obtain ⟨_, _, hbuf, hlen⟩ := read_of_unfailed bytes stm1 _ hf
          refine hloop (block_count m).toNat _ m rec.elevations_ ?_ hb
          rw [hbuf, hlen]
          exact toNat_blocks m (by omega)

/-! ## C19: the record formatter -/

/-- Claim C19: for a record with column index c and n samples (n within the range of the `int`
counter of the loop), the record formatter writes "\nColumn: c\nPoints: n" followed by the
samples in order on ceil(n/10) lines. Each line is a newline, the first sample of the line
as a decimal integer, and every further sample of the line preceded by ", "; each line holds
ten samples except possibly the last, which holds at least one. -/
theorem C19_record_formatter_ten_per_line (rec : DEMRecord)
    (hcount : (rec.elevations_.length : Int) ≤ INT_MAX) :
    DEMRecord.print rec
        = .ok ("\nColumn: ".toList ++ dec_int rec.col_
            ++ "\nPoints: ".toList ++ dec_nat rec.elevations_.length
            ++ ((sample_lines rec.elevations_).map format_line).flatten)
      ∧ (sample_lines rec.elevations_).length = (rec.elevations_.length + 9) / 10
      ∧ (sample_lines rec.elevations_).flatten = rec.elevations_
      ∧ ∀ (j : Nat) (line : List Int), (sample_lines rec.elevations_)[j]? = some line →
          line.length ≤ 10
          ∧ (j + 1 < (sample_lines rec.elevations_).length → line.length = 10)
          ∧ ∃ (z : Int) (more : List Int), line = z :: more
              ∧ format_line line
                = Char.ofNat 10 :: dec_int z
                    ++ (more.map (fun y => ", ".toList ++ dec_int y)).flatten := by
  have hlines : (sample_lines rec.elevations_).length = (rec.elevations_.length + 9) / 10 := by
    unfold sample_lines
    rw [List.length_map, List.length_range]
  refine ⟨?_, hlines, sample_lines_flatten _ _ (Nat.le_refl _), ?_⟩
  · unfold DEMRecord.print
    have h := print_loop_lines rec.elevations_.length rec.elevations_ 0 []
      ("\nColumn: ".toList ++ dec_int rec.col_
        ++ "\nPoints: ".toList ++ dec_nat rec.elevations_.length)
      (Nat.le_refl _) rfl (by rw [Nat.zero_add]; exact hcount)
    exact h
  · intro j line hj
    obtain ⟨hlt, hline⟩ := sample_lines_getElem? _ _ _ hj
    have hlen : line.length = min 10 (rec.elevations_.length - 10 * j) := by
      rw [hline, List.length_take, List.length_drop]
    have hpos : 0 < line.length := by omega
    refine ⟨by omega, fun hnext => by omega, ?_⟩
    cases line with
    | nil => simp at hpos
    | cons z more => exact ⟨z, more, rfl, format_line_cons z more⟩

/-- Claim C19 on a record of twelve samples: ten on the first line, two on the second. -/
theorem C19_twelve_samples_example :
    ((([1, 2, 3, 4, 5, 6, 7, 8, 9, 10, 11, -12] : List Int).length : Nat) : Int) ≤ INT_MAX
      ∧ DEMRecord.print { col_ := 3, elevations_ := [1, 2, 3, 4, 5, 6, 7, 8, 9, 10, 11, -12] }
          = .ok "\nColumn: 3\nPoints: 12\n1, 2, 3, 4, 5, 6, 7, 8, 9, 10\n11, -12".toList := by
  refine ⟨by decide, ?_⟩
  rw [(C19_record_formatter_ten_per_line
    { col_ := 3, elevations_ := [1, 2, 3, 4, 5, 6, 7, 8, 9, 10, 11, -12] } (by decide)).1]
  decide

end DEM
